import Mathlib

/-!
# Verification of `bible_references.py` (FormattingScripture)

This file gives a shallow embedding of the scripture-reference
standardization engine of `src/bible_references.py`:

* a faithful backtracking regular-expression engine (`matchRE`) mirroring
  Python `re` semantics on the constructs the source uses: character
  classes, case-insensitive literal alternation, greedy/lazy quantifiers
  over character classes, capture groups, word boundaries, and lookaheads;
* the book lexicon `BIBLE_BOOKS`, the seven compiled patterns of
  `PATTERNS`, and the rewrite functions `standardize_reference`,
  `standardize_period_format`, `standardize_invalid_range`,
  `standardize_standalone_chapter`, `parse_reference_components`,
  `standardize_book_name`, `process_parenthesized_references`;
* the orchestrator `standardize_text`.

Python operations that can raise (`.group(n)` on a non-participating
group followed by a method call, `re.match(...).group(0)` on a failed
match) are modelled in the `Option` monad: `none` models an exception
propagating out of the function.
-/

/-! ## Characters and Python string primitives (ASCII fragment) -/

/-- Lower-case an ASCII character, as Python `str.lower` does on ASCII. -/
def lowc (c : Char) : Char :=
  if 'A' ≤ c ∧ c ≤ 'Z' then Char.ofNat (c.toNat + 32) else c

/-- Upper-case an ASCII character. -/
def upc (c : Char) : Char :=
  if 'a' ≤ c ∧ c ≤ 'z' then Char.ofNat (c.toNat - 32) else c

def isAlphaC (c : Char) : Bool :=
  ('a' ≤ c && c ≤ 'z') || ('A' ≤ c && c ≤ 'Z')

def isDigitC (c : Char) : Bool := '0' ≤ c && c ≤ '9'

/-- Python regex `\w` on ASCII. -/
def isWordC (c : Char) : Bool := isAlphaC c || isDigitC c || c = '_'

/-- Python regex `\s` on ASCII: space, tab, newline, CR, VT, FF. -/
def isSpaceC (c : Char) : Bool :=
  c = ' ' || c = '\t' || c = '\n' || c = '\x0d' ||
  c = Char.ofNat 11 || c = Char.ofNat 12

/-- Python `str.lower`. -/
def lowerL (s : List Char) : List Char := s.map lowc

/-- Python `str.title` (ASCII): the first letter of each run of letters is
upper-cased, subsequent letters lower-cased. -/
def titleAux : Bool → List Char → List Char
  | _, [] => []
  | prevAlpha, c :: rest =>
    (if isAlphaC c then (if prevAlpha then lowc c else upc c) else c) ::
      titleAux (isAlphaC c) rest

def titleL (s : List Char) : List Char := titleAux false s

/-- Drop trailing characters satisfying `p` (Python `rstrip` over a set). -/
def rstripSet (p : Char → Bool) (s : List Char) : List Char :=
  (s.reverse.dropWhile p).reverse

/-- Python `str.strip()` (whitespace both ends). -/
def stripWs (s : List Char) : List Char :=
  rstripSet isSpaceC (s.dropWhile isSpaceC)

/-- Python `str.lstrip()`. -/
def lstripWs (s : List Char) : List Char := s.dropWhile isSpaceC

/-- Python `str.endswith`. -/
def endsWithL (s suffix : List Char) : Bool := suffix.isSuffixOf s

/-- Python `str.replace`: replace all non-overlapping occurrences,
left to right.  `old` is nonempty at every call site of the source. -/
def pyReplaceAux (old new : List Char) : Nat → List Char → List Char
  | 0, s => s
  | fuel + 1, s =>
    if old ≠ [] ∧ old.isPrefixOf s then
      new ++ pyReplaceAux old new fuel (s.drop old.length)
    else
      match s with
      | [] => []
      | c :: rest => c :: pyReplaceAux old new fuel rest

def pyReplace (s old new : List Char) : List Char :=
  pyReplaceAux old new (s.length + 1) s

/-- Render an optional matched-group value the way a Python f-string
renders it: `None` prints as the four characters `None`. -/
def pyShow (o : Option (List Char)) : List Char := o.getD "None".toList

/-- Python truthiness of a matched-group value: `None` and the empty
string are falsy. -/
def truthy (o : Option (List Char)) : Bool :=
  match o with
  | some l => !l.isEmpty
  | none => false

/-! ## A backtracking regex engine with Python `re` semantics

Quantifiers (`star`, `plus`, `plusLazy`) range over single-character
classes only, which covers every quantified subexpression occurring in
the source's patterns; this keeps the engine structurally recursive.
Alternatives are tried left to right, greedy quantifiers longest-first,
exactly as Python's backtracking engine does. -/

inductive RE : Type where
  | fail : RE
  | eps : RE
  | cls (p : Char → Bool) : RE
  | lit (cs : List Char) : RE
  | seq (a b : RE) : RE
  | alt (a b : RE) : RE
  | opt (a : RE) : RE
  | star (p : Char → Bool) : RE
  | plus (p : Char → Bool) : RE
  | plusLazy (p : Char → Bool) : RE
  | grp (n : Nat) (a : RE) : RE
  | wb : RE
  | eos : RE
  | nla (a : RE) : RE
  | pla (a : RE) : RE

/-- Capture-group store: group index ↦ span `(start, stop)`. -/
abbrev Groups : Type := Nat → Option (Nat × Nat)

def emptyG : Groups := fun _ => none

def insertG (n : Nat) (v : Nat × Nat) (g : Groups) : Groups :=
  fun m => if m = n then some v else g m

/-- A match result: end position and capture groups. -/
abbrev MRes : Type := Nat × Groups

/-- Case-insensitive literal comparison of `cs` against `s` at `i`. -/
def litEq (s : List Char) : Nat → List Char → Bool
  | _, [] => true
  | i, c :: cs =>
    match s.get? i with
    | some d => lowc d = lowc c && litEq s (i + 1) cs
    | none => false

/-- Does position `i` of `s` hold a character satisfying `p`? -/
def clsTest (s : List Char) (p : Char → Bool) (i : Nat) : Bool :=
  match s.get? i with
  | some c => p c
  | none => false

def wordAt (s : List Char) (i : Nat) : Bool :=
  match s.get? i with
  | some c => isWordC c
  | none => false

/-- Python `\b`: exactly one of the previous and current positions holds a
word character (positions outside the string count as non-word). -/
def boundaryAt (s : List Char) (i : Nat) : Bool :=
  wordAt s i != (if i = 0 then false else wordAt s (i - 1))

/-- Length of the maximal run of characters satisfying `p` from `i`. -/
def maxRun (s : List Char) (p : Char → Bool) (i : Nat) : Nat :=
  ((s.drop i).takeWhile p).length

/-- Candidate end positions for a greedy `p*` at `i`: longest first. -/
def starCands (i m : Nat) : List Nat := (List.range (m + 1)).reverse.map (i + ·)

/-- Candidate end positions for a greedy `p+` at `i`: longest first, at least one. -/
def plusCands (i m : Nat) : List Nat := (List.range m).reverse.map (fun t => i + t + 1)

/-- Candidate end positions for a lazy `p+?` at `i`: shortest first. -/
def lazyCands (i m : Nat) : List Nat := (List.range m).map (fun t => i + t + 1)

/-- The backtracking matcher in continuation-passing style.  The
continuation receives the position after the construct and the updated
group store; the first success in backtracking order is returned. -/
def matchRE (s : List Char) : RE → Nat → Groups → (Nat → Groups → Option MRes) → Option MRes
  | .fail, _, _, _ => none
  | .eps, i, g, k => k i g
  | .cls p, i, g, k => if clsTest s p i then k (i + 1) g else none
  | .lit cs, i, g, k => if litEq s i cs then k (i + cs.length) g else none
  | .seq a b, i, g, k => matchRE s a i g (fun j g2 => matchRE s b j g2 k)
  | .alt a b, i, g, k => (matchRE s a i g k).orElse (fun _ => matchRE s b i g k)
  | .opt a, i, g, k => (matchRE s a i g k).orElse (fun _ => k i g)
  | .star p, i, g, k => (starCands i (maxRun s p i)).findSome? (fun b => k b g)
  | .plus p, i, g, k => (plusCands i (maxRun s p i)).findSome? (fun b => k b g)
  | .plusLazy p, i, g, k => (lazyCands i (maxRun s p i)).findSome? (fun b => k b g)
  | .grp n a, i, g, k => matchRE s a i g (fun j g2 => k j (insertG n (i, j) g2))
  | .wb, i, g, k => if boundaryAt s i then k i g else none
  | .eos, i, g, k => if i = s.length then k i g else none
  | .nla a, i, g, k =>
    if (matchRE s a i g (fun j g2 => some (j, g2))).isSome then none else k i g
  | .pla a, i, g, k =>
    if (matchRE s a i g (fun j g2 => some (j, g2))).isSome then k i g else none

/-- Attempt an anchored match of `r` at position `i` of `s`
(Python `re.match` when `i = 0`). -/
def matchAt (r : RE) (s : List Char) (i : Nat) : Option MRes :=
  matchRE s r i emptyG (fun j g => some (j, g))

/-- First match at or after position `p` (start, stop, groups). -/
def findFrom (r : RE) (s : List Char) (p : Nat) : Option (Nat × Nat × Groups) :=
  (List.range' p (s.length + 1 - p)).findSome?
    (fun i => (matchAt r s i).map (fun jg => (i, jg.1, jg.2)))

/-- Python `re.finditer`: non-overlapping matches, scanning left to right;
a zero-width match advances the scan position by one. -/
def finditerAux (r : RE) (s : List Char) : Nat → Nat → List (Nat × Nat × Groups)
  | 0, _ => []
  | fuel + 1, p =>
    match findFrom r s p with
    | none => []
    | some (i, j, g) => (i, j, g) :: finditerAux r s fuel (if i < j then j else j + 1)

def finditer (r : RE) (s : List Char) : List (Nat × Nat × Groups) :=
  finditerAux r s (s.length + 2) 0

/-- Substring `s[a:b]`. -/
def sliceL (s : List Char) (a b : Nat) : List Char := (s.drop a).take (b - a)

/-- The view of a regex match that the rewrite functions consume:
the subject string, the span, the group store and the number of capture
groups of the pattern (Python `len(match.groups())`). -/
structure MatchObj where
  src : List Char
  mstart : Nat
  mstop : Nat
  groups : Groups
  ngroups : Nat

/-- `match.group(0)`. -/
def MatchObj.group0 (m : MatchObj) : List Char := sliceL m.src m.mstart m.mstop

/-- `match.group(n)`: `none` models Python's `None` for a group that did
not participate in the match. -/
def MatchObj.grp (m : MatchObj) (n : Nat) : Option (List Char) :=
  (m.groups n).map (fun ab => sliceL m.src ab.1 ab.2)

def toMatch (s : List Char) (ng : Nat) (t : Nat × Nat × Groups) : MatchObj :=
  ⟨s, t.1, t.2.1, t.2.2, ng⟩

/-- Python `re.search`. -/
def searchM (r : RE) (s : List Char) (ng : Nat) : Option MatchObj :=
  (findFrom r s 0).map (toMatch s ng)

/-- Reassemble a string from the pieces between matches and the
replacement for each match (helper for `re.sub`). -/
def assembleSub (s : List Char) : List (Nat × Nat × Groups) → List (List Char) → Nat → List Char
  | [], _, c => s.drop c
  | _ :: _, [], c => s.drop c
  | t :: ts, r :: rs, c => sliceL s c t.1 ++ r ++ assembleSub s ts rs t.2.1

/-- Python `re.sub(pattern, f, s)` with a callable replacement; `none`
models an exception raised inside the replacement function. -/
def subAll (r : RE) (ng : Nat) (f : MatchObj → Option (List Char)) (s : List Char) :
    Option (List Char) := do
  let ms := finditer r s
  let pieces ← ms.mapM (fun t => f (toMatch s ng t))
  pure (assembleSub s ms pieces 0)

/-- Python `re.split`. -/
def splitPieces (s : List Char) : List (Nat × Nat × Groups) → Nat → List (List Char)
  | [], c => [s.drop c]
  | t :: ts, c => sliceL s c t.1 :: splitPieces s ts t.2.1

def splitBy (r : RE) (s : List Char) : List (List Char) :=
  splitPieces s (finditer r s) 0
/-- The book lexicon of the source, in dictionary insertion order
(keys are unique in the source literal). -/
def BIBLE_BOOKS : List (String × String) := [
  ("gen", "Genesis"), ("ge", "Genesis"), ("gn", "Genesis"), ("genesis", "Genesis"),
  ("exod", "Exodus"), ("ex", "Exodus"), ("exo", "Exodus"), ("exodus", "Exodus"),
  ("lev", "Leviticus"), ("le", "Leviticus"), ("lv", "Leviticus"), ("leviticus", "Leviticus"),
  ("num", "Numbers"), ("nu", "Numbers"), ("nm", "Numbers"), ("numbers", "Numbers"),
  ("deut", "Deuteronomy"), ("dt", "Deuteronomy"), ("de", "Deuteronomy"), ("deuteronomy", "Deuteronomy"),
  ("josh", "Joshua"), ("jos", "Joshua"), ("jsh", "Joshua"), ("joshua", "Joshua"),
  ("judg", "Judges"), ("jdg", "Judges"), ("jg", "Judges"), ("judges", "Judges"),
  ("ruth", "Ruth"), ("rth", "Ruth"), ("ru", "Ruth"), ("1 sam", "1 Samuel"),
  ("1sam", "1 Samuel"), ("1 sa", "1 Samuel"), ("1sa", "1 Samuel"), ("1 samuel", "1 Samuel"),
  ("2 sam", "2 Samuel"), ("2sam", "2 Samuel"), ("2 sa", "2 Samuel"), ("2sa", "2 Samuel"),
  ("2 samuel", "2 Samuel"), ("1 kgs", "1 Kings"), ("1kgs", "1 Kings"), ("1 ki", "1 Kings"),
  ("1ki", "1 Kings"), ("1 kings", "1 Kings"), ("2 kgs", "2 Kings"), ("2kgs", "2 Kings"),
  ("2 ki", "2 Kings"), ("2ki", "2 Kings"), ("2 kings", "2 Kings"), ("1 chr", "1 Chronicles"),
  ("1chr", "1 Chronicles"), ("1 ch", "1 Chronicles"), ("1ch", "1 Chronicles"), ("1 chronicles", "1 Chronicles"),
  ("2 chr", "2 Chronicles"), ("2chr", "2 Chronicles"), ("2 ch", "2 Chronicles"), ("2ch", "2 Chronicles"),
  ("2 chronicles", "2 Chronicles"), ("ezra", "Ezra"), ("ezr", "Ezra"), ("ez", "Ezra"),
  ("neh", "Nehemiah"), ("ne", "Nehemiah"), ("nehemiah", "Nehemiah"), ("esth", "Esther"),
  ("est", "Esther"), ("es", "Esther"), ("esther", "Esther"), ("job", "Job"),
  ("jb", "Job"), ("ps", "Psalm"), ("psa", "Psalm"), ("psm", "Psalm"),
  ("psalm", "Psalm"), ("ps.", "Psalm"), ("pss", "Psalms"), ("psalms", "Psalms"),
  ("prov", "Proverbs"), ("pro", "Proverbs"), ("pr", "Proverbs"), ("prv", "Proverbs"),
  ("proverbs", "Proverbs"), ("eccl", "Ecclesiastes"), ("ecc", "Ecclesiastes"), ("ec", "Ecclesiastes"),
  ("ecclesiastes", "Ecclesiastes"), ("song", "Song of Solomon"), ("sos", "Song of Solomon"), ("ss", "Song of Solomon"),
  ("song of solomon", "Song of Solomon"), ("isa", "Isaiah"), ("is", "Isaiah"), ("isaiah", "Isaiah"),
  ("jer", "Jeremiah"), ("je", "Jeremiah"), ("jeremiah", "Jeremiah"), ("lam", "Lamentations"),
  ("la", "Lamentations"), ("lamentations", "Lamentations"), ("ezek", "Ezekiel"), ("eze", "Ezekiel"),
  ("ezk", "Ezekiel"), ("ezekiel", "Ezekiel"), ("dan", "Daniel"), ("da", "Daniel"),
  ("dn", "Daniel"), ("daniel", "Daniel"), ("hos", "Hosea"), ("ho", "Hosea"),
  ("hosea", "Hosea"), ("joel", "Joel"), ("jl", "Joel"), ("amos", "Amos"),
  ("am", "Amos"), ("obad", "Obadiah"), ("ob", "Obadiah"), ("obadiah", "Obadiah"),
  ("jonah", "Jonah"), ("jon", "Jonah"), ("mic", "Micah"), ("mi", "Micah"),
  ("micah", "Micah"), ("nah", "Nahum"), ("na", "Nahum"), ("nahum", "Nahum"),
  ("hab", "Habakkuk"), ("hb", "Habakkuk"), ("habakkuk", "Habakkuk"), ("zeph", "Zephaniah"),
  ("zep", "Zephaniah"), ("zp", "Zephaniah"), ("zephaniah", "Zephaniah"), ("hag", "Haggai"),
  ("hg", "Haggai"), ("haggai", "Haggai"), ("zech", "Zechariah"), ("zec", "Zechariah"),
  ("zc", "Zechariah"), ("zechariah", "Zechariah"), ("mal", "Malachi"), ("ml", "Malachi"),
  ("malachi", "Malachi"), ("matt", "Matthew"), ("mt", "Matthew"), ("mat", "Matthew"),
  ("matthew", "Matthew"), ("mark", "Mark"), ("mk", "Mark"), ("mr", "Mark"),
  ("luke", "Luke"), ("lk", "Luke"), ("lu", "Luke"), ("john", "John"),
  ("jn", "John"), ("jhn", "John"), ("acts", "Acts"), ("ac", "Acts"),
  ("act", "Acts"), ("rom", "Romans"), ("ro", "Romans"), ("rm", "Romans"),
  ("romans", "Romans"), ("rom.", "Romans"), ("1 cor", "1 Corinthians"), ("1cor", "1 Corinthians"),
  ("1 co", "1 Corinthians"), ("1co", "1 Corinthians"), ("1 corinthians", "1 Corinthians"), ("2 cor", "2 Corinthians"),
  ("2cor", "2 Corinthians"), ("2 co", "2 Corinthians"), ("2co", "2 Corinthians"), ("2 corinthians", "2 Corinthians"),
  ("gal", "Galatians"), ("ga", "Galatians"), ("galatians", "Galatians"), ("gal.", "Galatians"),
  ("eph", "Ephesians"), ("ep", "Ephesians"), ("ephesians", "Ephesians"), ("eph.", "Ephesians"),
  ("phil", "Philippians"), ("php", "Philippians"), ("pp", "Philippians"), ("philippians", "Philippians"),
  ("col", "Colossians"), ("co", "Colossians"), ("col.", "Colossians"), ("colossians", "Colossians"),
  ("1 thess", "1 Thessalonians"), ("1thess", "1 Thessalonians"), ("1 th", "1 Thessalonians"), ("1th", "1 Thessalonians"),
  ("1 thessalonians", "1 Thessalonians"), ("2 thess", "2 Thessalonians"), ("2thess", "2 Thessalonians"), ("2 th", "2 Thessalonians"),
  ("2th", "2 Thessalonians"), ("2 thessalonians", "2 Thessalonians"), ("1 tim", "1 Timothy"), ("1tim.", "1 Timothy"),
  ("1 ti", "1 Timothy"), ("1ti", "1 Timothy"), ("1 timothy", "1 Timothy"), ("2 tim", "2 Timothy"),
  ("2tim.", "2 Timothy"), ("2 ti", "2 Timothy"), ("2ti", "2 Timothy"), ("2 timothy", "2 Timothy"),
  ("titus", "Titus"), ("tit", "Titus"), ("ti", "Titus"), ("phlm", "Philemon"),
  ("phm", "Philemon"), ("pm", "Philemon"), ("philemon", "Philemon"), ("heb", "Hebrews"),
  ("he", "Hebrews"), ("hebrews", "Hebrews"), ("jas", "James"), ("jm", "James"),
  ("ja", "James"), ("james", "James"), ("1 pet", "1 Peter"), ("1pet", "1 Peter"),
  ("1 pe", "1 Peter"), ("1pe", "1 Peter"), ("1 peter", "1 Peter"), ("2 pet", "2 Peter"),
  ("2pet", "2 Peter"), ("2 pe", "2 Peter"), ("2pe", "2 Peter"), ("2 peter", "2 Peter"),
  ("1 john", "1 John"), ("1john", "1 John"), ("1 jn", "1 John"), ("1jn", "1 John"),
  ("2 john", "2 John"), ("2john", "2 John"), ("2 jn", "2 John"), ("2jn", "2 John"),
  ("3 john", "3 John"), ("3john", "3 John"), ("3 jn", "3 John"), ("3jn", "3 John"),
  ("jude", "Jude"), ("jud", "Jude"), ("jd", "Jude"), ("rev", "Revelation"),
  ("re", "Revelation"), ("rv", "Revelation"), ("revelation", "Revelation")]

/-! ## The compiled patterns of the source -/

/-- Shorthand: a string literal as a character list. -/
def sL (s : String) : List Char := s.toList

def booksL : List (List Char × List Char) :=
  BIBLE_BOOKS.map (fun p => (p.1.toList, p.2.toList))

/-- `BIBLE_BOOKS.get(key, default)`. -/
def bibleGet (k dflt : List Char) : List Char := (booksL.lookup k).getD dflt

/-- Character class `[\.\s,;]` (also the set stripped by the source's
`re.sub(r'[\.,\s;]+$', '', ...)`). -/
def punctCls (c : Char) : Bool := c = '.' || c = ',' || c = ';' || isSpaceC c

/-- Character class `[\s\.,]`. -/
def stripCls (c : Char) : Bool := isSpaceC c || c = '.' || c = ','

/-- Character class `[A-Za-z0-9\s\.]`. -/
def bookCls (c : Char) : Bool := isAlphaC c || isDigitC c || isSpaceC c || c = '.'

/-- Character class `[*#]`. -/
def markCls (c : Char) : Bool := c = '*' || c = '#'

/-- Character class `[^)]`. -/
def notRparen (c : Char) : Bool := c ≠ ')'

/-- Character class `[:\.]`. -/
def colonDotCls (c : Char) : Bool := c = ':' || c = '.'

/-- Character class `[-:]`. -/
def dashColonCls (c : Char) : Bool := c = '-' || c = ':'

def chrR (c : Char) : RE := .lit [c]

def strR (s : String) : RE := .lit s.toList

def seqs : List RE → RE
  | [] => .eps
  | [r] => r
  | r :: rs => .seq r (seqs rs)

/-- The alternation of all lexicon keys, in dictionary order (Python's
`'|'.join(map(re.escape, BIBLE_BOOKS.keys()))`): alternatives are tried
left to right. -/
def bookAlt : RE :=
  (BIBLE_BOOKS.map Prod.fst).foldr (fun k acc => .alt (.lit k.toList) acc) .fail

/-- `BOOK_PATTERN = r'\b(<keys>)([\.\s,;]*)?\b'`: group 1 the key,
group 2 the optional trailing punctuation. -/
def bookRE : RE :=
  .seq .wb (.seq (.grp 1 bookAlt) (.seq (.opt (.grp 2 (.star punctCls))) .wb))

/-- `(\d+)` as capture group `n`. -/
def dPlus (n : Nat) : RE := .grp n (.plus isDigitC)

/-- `([*#]?)` as capture group `n`. -/
def markGrp (n : Nat) : RE := .grp n (.opt (.cls markCls))

/-- `(?:-(\d+))?` with the digits as capture group `n`. -/
def optRange (n : Nat) : RE := .opt (.seq (chrR '-') (dPlus n))

/-- Pattern 1: `\(([^)]+)\)`. -/
def pat1 : RE := seqs [chrR '(', .grp 1 (.plus notRparen), chrR ')']

/-- Pattern 2 (period format): `BOOK_PATTERN\s*(\d+)\.(\d+)(?:-(\d+))?([*#]?)`. -/
def pat2 : RE :=
  .seq bookRE (seqs [.star isSpaceC, dPlus 3, chrR '.', dPlus 4, optRange 5, markGrp 6])

/-- Pattern 3 (colon format): `BOOK_PATTERN\s*(\d+):(\d+)(?:-(\d+))?([*#]?)`. -/
def pat3 : RE :=
  .seq bookRE (seqs [.star isSpaceC, dPlus 3, chrR ':', dPlus 4, optRange 5, markGrp 6])

/-- Pattern 4 (verbose): `BOOK_PATTERN\s*chapter\s*(\d+)\s*verse\s*(\d+)(?:-(\d+))?([*#]?)`. -/
def pat4 : RE :=
  .seq bookRE (seqs [.star isSpaceC, strR "chapter", .star isSpaceC, dPlus 3,
    .star isSpaceC, strR "verse", .star isSpaceC, dPlus 4, optRange 5, markGrp 6])

/-- Pattern 5 (space format): `BOOK_PATTERN\s*(\d+)\s+(\d+)(?:-(\d+))?([*#]?)`. -/
def pat5 : RE :=
  .seq bookRE (seqs [.star isSpaceC, dPlus 3, .plus isSpaceC, dPlus 4, optRange 5, markGrp 6])

/-- First lookahead of pattern 6: `[:\.]\d+|\s+\d+`. -/
def la1 : RE :=
  .alt (.seq (.cls colonDotCls) (.plus isDigitC)) (.seq (.plus isSpaceC) (.plus isDigitC))

/-- Second lookahead of pattern 6: `\s*\d+[-:]\d+`. -/
def la2 : RE :=
  seqs [.star isSpaceC, .plus isDigitC, .cls dashColonCls, .plus isDigitC]

/-- Pattern 6 (standalone chapter):
`BOOK_PATTERN\s+(\d+)(?![:\.]\d+|\s+\d+)([*#]?)(?!\s*\d+[-:]\d+)`. -/
def pat6 : RE :=
  .seq bookRE (seqs [.plus isSpaceC, dPlus 3, .nla la1, markGrp 4, .nla la2])

/-- Pattern 7 (invalid range): `BOOK_PATTERN\s*(\d+):(\d+):(\d+)([*#]?)`. -/
def pat7 : RE :=
  .seq bookRE (seqs [.star isSpaceC, dPlus 3, chrR ':', dPlus 4, chrR ':', dPlus 5, markGrp 6])

/-- Book-prefix pattern of `parse_reference_components`:
`^([A-Za-z0-9\s\.]+?)[\s\.,]*(?=\d|$)` (used anchored at 0). -/
def ppBook : RE :=
  seqs [.grp 1 (.plusLazy bookCls), .star stripCls, .pla (.alt (.cls isDigitC) .eos)]

/-- `(\d+):(\d+)(?:-(\d+))?([*#]?)`. -/
def cvColon : RE := seqs [dPlus 1, chrR ':', dPlus 2, optRange 3, markGrp 4]

/-- `(\d+)\.(\d+)(?:-(\d+))?([*#]?)`. -/
def cvPeriod : RE := seqs [dPlus 1, chrR '.', dPlus 2, optRange 3, markGrp 4]

/-- `(\d+)([*#]?)`. -/
def cOnly : RE := seqs [dPlus 1, markGrp 2]

/-- `([A-Za-z]+),\s*(\d+)` (the comma-fix pattern of the group resolver). -/
def fixRE : RE :=
  seqs [.grp 1 (.plus isAlphaC), chrR ',', .star isSpaceC, .grp 2 (.plus isDigitC)]

/-- `,\s*` (the split pattern of the group resolver). -/
def commaSplit : RE := .seq (chrR ',') (.star isSpaceC)

/-- `\d+[:\.]\d+` (the chapter:verse detector of the standalone-chapter rewrite). -/
def ddRE : RE := seqs [.plus isDigitC, .cls colonDotCls, .plus isDigitC]

/-- `([A-Za-z0-9\s\.]+)(?:,?\s*(\d+))?` (last-ditch pattern of the group resolver). -/
def lastRE : RE :=
  .seq (.grp 1 (.plus bookCls))
    (.opt (seqs [.opt (chrR ','), .star isSpaceC, .grp 2 (.plus isDigitC)]))

/-- `(\d+):(\d+)` (chapter:verse detector of the last-ditch branch). -/
def cvShort : RE := seqs [dPlus 1, chrR ':', dPlus 2]

/-! ## The rewrite functions of the source

Each function mirrors the Python function of the same name; `none`
models an exception propagating out of the function. -/

/-- `standardize_standalone_chapter` (source lines 114–140). -/
def standardize_standalone_chapter (m : MatchObj) : Option (List Char) := do
  let original := m.group0
  if original.contains ':' || original.contains '.' then
    pure original
  else if (findFrom ddRE original 0).isSome then
    pure original
  else
    let g1 ← m.grp 1
    let book_abbr := rstripSet (· = '.') (lowerL g1)
    let book_name := bibleGet book_abbr (titleL book_abbr)
    let chapter := pyShow (m.grp 2)
    let special_char :=
      if m.ngroups ≥ 3 && truthy (m.grp 3) then (m.grp 3).getD [] else []
    if special_char ≠ [] && endsWithL original special_char then
      pure (book_name ++ sL " " ++ chapter ++ sL ":1")
    else
      pure (book_name ++ sL " " ++ chapter ++ sL ":1" ++ special_char)

/-- `standardize_reference` (source lines 142–195). -/
def standardize_reference (m : MatchObj) (standardize_verse : Bool) : Option (List Char) := do
  let g1 ← m.grp 1
  let book_abbr := rstripSet punctCls (lowerL g1)
  let book_name := bibleGet book_abbr (titleL book_abbr)
  let g2 ← m.grp 2
  let chapter := stripWs g2
  let verse_start := if truthy (m.grp 3) then stripWs ((m.grp 3).getD []) else sL "1"
  let (verse_end, special_char) :=
    if m.ngroups ≥ 4 && truthy (m.grp 4) then
      let v := (m.grp 4).getD []
      if v = sL "*" || v = sL "#" then (none, v) else (some (stripWs v), ([] : List Char))
    else (none, ([] : List Char))
  let special_char :=
    if m.ngroups ≥ 5 && truthy (m.grp 5) then (m.grp 5).getD [] else special_char
  let original := m.group0
  let special_char :=
    if special_char = [] && original.contains '*' then sL "*"
    else if special_char = [] && original.contains '#' then sL "#"
    else special_char
  let reference ←
    if standardize_verse then
      let r := book_name ++ sL " " ++ chapter ++ sL ":" ++ verse_start
      pure (match verse_end with
        | some v => if v ≠ [] && v ≠ sL "*" && v ≠ sL "#" then r ++ sL "-" ++ v else r
        | none => r)
    else do
      let bm ← matchAt bookRE original 0
      let remaining := lstripWs (original.drop bm.1)
      pure (book_name ++ sL " " ++ remaining)
  if special_char ≠ [] && !endsWithL original special_char then
    pure (reference ++ special_char)
  else if special_char ≠ [] && endsWithL original special_char then
    pure (if !endsWithL reference special_char then reference ++ special_char else reference)
  else
    pure reference

/-- `standardize_period_format` (source lines 197–241). -/
def standardize_period_format (m : MatchObj) : Option (List Char) := do
  let g1 ← m.grp 1
  let book_abbr := rstripSet punctCls (lowerL g1)
  let book_name := bibleGet book_abbr (titleL book_abbr)
  let original := m.group0
  let g2 ← m.grp 2
  let _chapter := stripWs g2
  let _verse_start := if truthy (m.grp 3) then stripWs ((m.grp 3).getD []) else sL "1"
  let special_char :=
    if m.ngroups ≥ 5 && truthy (m.grp 5) then (m.grp 5).getD []
    else if original.contains '*' then sL "*"
    else if original.contains '#' then sL "#"
    else []
  let bm ← matchAt bookRE original 0
  let number_part := stripWs (original.drop bm.1)
  let number_part :=
    if number_part.contains '.' then
      number_part.takeWhile (· ≠ '.') ++ sL ":" ++ ((number_part.dropWhile (· ≠ '.')).drop 1)
    else number_part
  let reference := book_name ++ sL " " ++ number_part
  if special_char ≠ [] && !endsWithL reference special_char then
    pure (reference ++ special_char)
  else
    pure reference

/-- `standardize_invalid_range` (source lines 243–255). -/
def standardize_invalid_range (m : MatchObj) : Option (List Char) := do
  let g1 ← m.grp 1
  let book_abbr := rstripSet punctCls (lowerL g1)
  let book_name := bibleGet book_abbr (titleL book_abbr)
  let chapter := pyShow (m.grp 2)
  let verse_start := pyShow (m.grp 3)
  let verse_end :=
    if m.ngroups ≥ 4 && truthy (m.grp 4) then m.grp 4 else none
  let special_char :=
    if m.ngroups ≥ 5 && truthy (m.grp 5) then (m.grp 5).getD [] else []
  pure (book_name ++ sL " " ++ chapter ++ sL ":" ++ verse_start ++ sL "-" ++
    pyShow verse_end ++ special_char)

/-- The components dictionary produced by `parse_reference_components`. -/
structure RefComponents where
  book_abbr : List Char
  chapter : Option (List Char)
  verse_start : Option (List Char)
  verse_end : Option (List Char)
  special_char : List Char

/-- `parse_reference_components` (source lines 257–310).  The outer
`Option` models an exception; the inner one models Python's `None`
return value. -/
def parse_reference_components (ref : List Char) : Option (Option RefComponents) :=
  match matchAt ppBook ref 0 with
  | none => some none
  | some (j, g) =>
    let bm : MatchObj := ⟨ref, 0, j, g, 1⟩
    match bm.grp 1 with
    | none => none
    | some g1 =>
      let book_abbr := rstripSet punctCls (lowerL (stripWs g1))
      match searchM cvColon ref 4 with
      | some cm =>
        some (some ⟨book_abbr, cm.grp 1, cm.grp 2,
          (if truthy (cm.grp 3) then cm.grp 3 else none),
          (if truthy (cm.grp 4) then (cm.grp 4).getD [] else [])⟩)
      | none =>
        match searchM cvPeriod ref 4 with
        | some cm =>
          some (some ⟨book_abbr, cm.grp 1, cm.grp 2,
            (if truthy (cm.grp 3) then cm.grp 3 else none),
            (if truthy (cm.grp 4) then (cm.grp 4).getD [] else [])⟩)
        | none =>
          match searchM cOnly ref 2 with
          | some cm =>
            some (some ⟨book_abbr, cm.grp 1, some (sL "1"), none,
              (if truthy (cm.grp 2) then (cm.grp 2).getD [] else [])⟩)
          | none => some none

/-- `standardize_book_name` (source lines 312–332). -/
def standardize_book_name (book_abbr : List Char) : List Char :=
  let a := rstripSet punctCls (lowerL book_abbr)
  match booksL.lookup a with
  | some v => v
  | none =>
    if a = sL "gal" || a = sL "gal." then sL "Galatians"
    else if a = sL "col" || a = sL "col." then sL "Colossians"
    else if a = sL "eph" || a = sL "eph." then sL "Ephesians"
    else if a = sL "cor" || a = sL "cor." then sL "1 Corinthians"
    else titleL a

/-- The standardized item built at source lines 369–379 from parsed
components (marker fallback scan included). -/
def mkStdItem (book_name : List Char) (comps : RefComponents) (ref : List Char) : List Char :=
  let special_char := comps.special_char
  let special_char :=
    if special_char = [] && ref.contains '*' then sL "*"
    else if special_char = [] && ref.contains '#' then sL "#"
    else special_char
  let std := book_name ++ sL " " ++ pyShow comps.chapter ++ sL ":" ++ pyShow comps.verse_start
  let std :=
    match comps.verse_end with
    | some v => if v ≠ [] && v ≠ sL "*" && v ≠ sL "#" then std ++ sL "-" ++ v else std
    | none => std
  std ++ special_char

/-- The per-item loop of `process_parenthesized_references`
(source lines 347–414), with the carried `last_book` threaded through. -/
def processItems : List (List Char) → Option (List Char) → Option (List (List Char))
  | [], _ => some []
  | ref :: rest, last_book => do
    match ← parse_reference_components ref with
    | some comps =>
      let bn := standardize_book_name comps.book_abbr
      if bn ≠ [] then do
        let tail ← processItems rest (some bn)
        pure (mkStdItem bn comps ref :: tail)
      else
        match last_book with
        | some lb => do
          let tail ← processItems rest last_book
          pure (mkStdItem lb comps ref :: tail)
        | none => do
          let tail ← processItems rest last_book
          pure (ref :: tail)
    | none =>
      match searchM lastRE ref 2 with
      | some bm =>
        if truthy (bm.grp 2) then do
          let g1b ← bm.grp 1
          let book_abbr := stripWs g1b
          let std_book := standardize_book_name book_abbr
          let (chapter, verse) :=
            match searchM cvShort ref 2 with
            | some cv => (pyShow (cv.grp 1), pyShow (cv.grp 2))
            | none => (pyShow (bm.grp 2), sL "1")
          let special_char :=
            if ref.contains '*' then sL "*"
            else if ref.contains '#' then sL "#"
            else []
          let item := std_book ++ sL " " ++ chapter ++ sL ":" ++ verse ++ special_char
          let tail ← processItems rest last_book
          pure (item :: tail)
        else do
          let tail ← processItems rest last_book
          pure (ref :: tail)
      | none => do
        let tail ← processItems rest last_book
        pure (ref :: tail)

/-- The `r'\1 \2'` template of the comma-fix `re.sub` (source line 340). -/
def fixTemplate (m : MatchObj) : Option (List Char) := do
  let a ← m.grp 1
  let b ← m.grp 2
  pure (a ++ sL " " ++ b)

/-- `process_parenthesized_references` (source lines 334–417). -/
def process_parenthesized_references (m : MatchObj) : Option (List Char) := do
  let content ← m.grp 1
  let content_fixed ← subAll fixRE 2 fixTemplate content
  let parts := splitBy commaSplit content_fixed
  let references := (parts.map stripWs).filter (fun p => !p.isEmpty)
  let result ← processItems references none
  pure (sL "(" ++ (sL ", ").intercalate result ++ sL ")")

/-! ## The orchestrator -/

/-- The `PATTERNS` list of the source: pattern, rewrite function, and
number of capture groups. -/
def PATTERNS : List (RE × (MatchObj → Option (List Char)) × Nat) :=
  [(pat1, process_parenthesized_references, 1),
   (pat2, standardize_period_format, 6),
   (pat3, (fun m => standardize_reference m false), 6),
   (pat4, (fun m => standardize_reference m true), 6),
   (pat5, (fun m => standardize_reference m true), 6),
   (pat6, standardize_standalone_chapter, 4),
   (pat7, standardize_invalid_range, 6)]

/-- One iteration of the pattern loop of `standardize_text` (source
lines 444–454): the match list is computed once against the text as it
stood at the start of this pattern's turn, then for each match the
replacement `pattern.sub(f, match_text)` is spliced in with the global
`str.replace`. -/
def applyPattern (t : List Char) (p : RE × (MatchObj → Option (List Char)) × Nat) :
    Option (List Char) := do
  let ms := finditer p.1 t
  ms.foldlM (fun cur mt => do
      let match_text := sliceL t mt.1 mt.2.1
      let rep ← subAll p.1 p.2.2 p.2.1 match_text
      pure (pyReplace cur match_text rep)) t

/-- `standardize_text` (source lines 423–456): apply the seven patterns
in order.  `none` models an exception escaping the function. -/
def standardize_text (text : List Char) : Option (List Char) :=
  PATTERNS.foldlM applyPattern text

/-- `standardize_text` on Lean strings. -/
def standardize_textS (s : String) : Option String :=
  (standardize_text s.toList).map (fun l => String.mk l)


/-! ## Auxiliary notions for the engine metatheory -/

/-- A continuation whose success does not depend on the group store
(there are no backreferences, so matching itself never reads groups). -/
def blindK (k : Nat → Groups → Option MRes) : Prop :=
  ∀ j h h', (k j h).isSome = (k j h').isSome

/-- Gate a continuation on group `n` being set. -/
def gateK (n : Nat) (k : Nat → Groups → Option MRes) : Nat → Groups → Option MRes :=
  fun j h => if (h n).isSome then k j h else none

/-- Syntactic criterion: every successful match of `r` records group `n`. -/
def mustSet : RE → Nat → Bool
  | .fail, _ => true
  | .seq a b, n => mustSet a n || mustSet b n
  | .alt a b, n => mustSet a n && mustSet b n
  | .grp m a, n => (decide (n = m)) || mustSet a n
  | _, _ => false

/-- Head-character soundness of a lexicon key: nonempty, a word
character, and already lower-case. -/
def keyHeadOk (key : String) : Bool :=
  match key.toList with
  | [] => false
  | c :: _ => isWordC c && (lowc c = c)

/-! ## Engine metatheory -/

theorem orElse_isSome_iff {α : Type} (x : Option α) (f : Unit → Option α) :
    (x.orElse f).isSome ↔ (x.isSome ∨ (f ()).isSome) := by
  rcases x with _ | a <;> simp [Option.orElse]

theorem orElse_eq_some_iff {α : Type} (x : Option α) (f : Unit → Option α) (c : α) :
    x.orElse f = some c ↔ (x = some c ∨ (x = none ∧ f () = some c)) := by
  rcases x with _ | a <;> simp [Option.orElse]

theorem findSome?_isSome_iff {α β : Type} {l : List α} {f : α → Option β} :
    (l.findSome? f).isSome ↔ ∃ a ∈ l, (f a).isSome := by
  induction l with
  | nil => simp
  | cons x xs ih =>
    rw [List.findSome?_cons]
    rcases hx : f x with _ | b <;> simp [hx, ih]

/-- Monotonicity of the matcher in the continuation: if every success of
`k` is a success of `k'`, a match with `k` yields a match with `k'`. -/
theorem matchRE_mono (s : List Char) (r : RE) :
    ∀ (i : Nat) (g : Groups) (k k' : Nat → Groups → Option MRes),
      (∀ j h, (k j h).isSome → (k' j h).isSome) →
      (matchRE s r i g k).isSome → (matchRE s r i g k').isSome := by
  induction r with
  | fail => intro i g k k' hk h; simp [matchRE] at h
  | eps => intro i g k k' hk h; exact hk _ _ h
  | cls p =>
    intro i g k k' hk h
    simp only [matchRE] at h ⊢
    by_cases hp : clsTest s p i
    · rw [if_pos hp] at h ⊢; exact hk _ _ h
    · rw [if_neg hp] at h; exact absurd h (by simp)
  | lit cs =>
    intro i g k k' hk h
    simp only [matchRE] at h ⊢
    by_cases hl : litEq s i cs
    · rw [if_pos hl] at h ⊢; exact hk _ _ h
    · rw [if_neg hl] at h; exact absurd h (by simp)
  | seq a b iha ihb =>
    intro i g k k' hk h
    simp only [matchRE] at h ⊢
    exact iha i g _ _ (fun j h2 => ihb j h2 k k' hk) h
  | alt a b iha ihb =>
    intro i g k k' hk h
    simp only [matchRE] at h ⊢
    rw [orElse_isSome_iff] at h ⊢
    rcases h with h | h
    · exact Or.inl (iha i g k k' hk h)
    · exact Or.inr (ihb i g k k' hk h)
  | opt a iha =>
    intro i g k k' hk h
    simp only [matchRE] at h ⊢
    rw [orElse_isSome_iff] at h ⊢
    rcases h with h | h
    · exact Or.inl (iha i g k k' hk h)
    · exact Or.inr (hk _ _ h)
  | star p =>
    intro i g k k' hk h
    simp only [matchRE] at h ⊢
    rw [findSome?_isSome_iff] at h ⊢
    obtain ⟨b, hb, hs⟩ := h
    exact ⟨b, hb, hk _ _ hs⟩
  | plus p =>
    intro i g k k' hk h
    simp only [matchRE] at h ⊢
    rw [findSome?_isSome_iff] at h ⊢
    obtain ⟨b, hb, hs⟩ := h
    exact ⟨b, hb, hk _ _ hs⟩
  | plusLazy p =>
    intro i g k k' hk h
    simp only [matchRE] at h ⊢
    rw [findSome?_isSome_iff] at h ⊢
    obtain ⟨b, hb, hs⟩ := h
    exact ⟨b, hb, hk _ _ hs⟩
  | grp n a iha =>
    intro i g k k' hk h
    simp only [matchRE] at h ⊢
    exact iha i g _ _ (fun j h2 => hk j _) h
  | wb =>
    intro i g k k' hk h
    simp only [matchRE] at h ⊢
    by_cases hb : boundaryAt s i
    · rw [if_pos hb] at h ⊢; exact hk _ _ h
    · rw [if_neg hb] at h; exact absurd h (by simp)
  | eos =>
    intro i g k k' hk h
    simp only [matchRE] at h ⊢
    by_cases hb : i = s.length
    · rw [if_pos hb] at h ⊢; exact hk _ _ h
    · rw [if_neg hb] at h; exact absurd h (by simp)
  | nla a iha =>
    intro i g k k' hk h
    simp only [matchRE] at h ⊢
    by_cases hb : (matchRE s a i g (fun j g2 => some (j, g2))).isSome
    · rw [if_pos hb] at h; exact absurd h (by simp)
    · rw [if_neg hb] at h ⊢; exact hk _ _ h
  | pla a iha =>
    intro i g k k' hk h
    simp only [matchRE] at h ⊢
    by_cases hb : (matchRE s a i g (fun j g2 => some (j, g2))).isSome
    · rw [if_pos hb] at h ⊢; exact hk _ _ h
    · rw [if_neg hb] at h; exact absurd h (by simp)

/-- A match of a sequence yields a match of its first component. -/
theorem matchAt_seq_left {a b : RE} {s : List Char} {i : Nat}
    (h : (matchAt (.seq a b) s i).isSome) : (matchAt a s i).isSome := by
  simp only [matchAt, matchRE] at h ⊢
  exact matchRE_mono s a i emptyG _ _ (fun j h2 _ => rfl) h

theorem lowc_eq_lparen {d : Char} (h : lowc d = '(') : d = '(' := by
  unfold lowc at h
  split at h
  · exfalso
    rename_i hAZ
    have h1 : 65 ≤ d.toNat := hAZ.1
    have h2 : d.toNat ≤ 90 := hAZ.2
    have hv : (d.toNat + 32).isValidChar := Or.inl (by omega)
    have ht : (Char.ofNat (d.toNat + 32)).toNat = d.toNat + 32 := by
      unfold Char.ofNat
      rw [dif_pos hv]
      rfl
    have h40 := congrArg Char.toNat h
    rw [ht] at h40
    have : ('(' : Char).toNat = 40 := by decide
    omega
  · exact h

/-- A match of pattern 1 requires a literal left parenthesis in `s`. -/
theorem pat1_match_has_paren {s : List Char} {i : Nat}
    (h : (matchAt pat1 s i).isSome) : s.contains '(' = true := by
  have hp : pat1 = .seq (chrR '(') (.seq (.grp 1 (.plus notRparen)) (chrR ')')) := rfl
  rw [hp] at h
  have h1 : (matchAt (chrR '(') s i).isSome := matchAt_seq_left h
  simp only [matchAt, matchRE, chrR] at h1
  by_cases hl : litEq s i ['(']
  · simp only [litEq] at hl
    rcases hd : s.get? i with _ | d
    · rw [hd] at hl; exact absurd hl (by simp)
    · rw [hd] at hl
      simp only [Bool.and_eq_true, decide_eq_true_eq] at hl
      have hdl : d = '(' := lowc_eq_lparen (by
        have : lowc '(' = '(' := by decide
        rw [← this]; exact hl.1)
      have : d ∈ s := List.get?_mem hd
      rw [hdl] at this
      simpa [List.contains] using (List.elem_iff).mpr this
  · rw [if_neg hl] at h1; exact absurd h1 (by simp)

/-- If a pattern matches at no position of `s`, its `finditer` is empty. -/
theorem finditer_of_no_match {r : RE} {s : List Char}
    (h : ∀ i, i ≤ s.length → matchAt r s i = none) : finditer r s = [] := by
  have hf : findFrom r s 0 = none := by
    rw [findFrom, List.findSome?_eq_none_iff]
    intro i hi
    have hle : i ≤ s.length := by
      have := (List.mem_range'_1.mp hi).2
      omega
    rw [h i hle]
    rfl
  show finditerAux r s (s.length + 2) 0 = []
  rw [show s.length + 2 = (s.length + 1) + 1 from rfl, finditerAux, hf]

/-- With no matches, one pattern pass of `standardize_text` returns the
text unchanged. -/
theorem applyPattern_of_no_match (t : List Char)
    (p : RE × (MatchObj → Option (List Char)) × Nat) (h : finditer p.1 t = []) :
    applyPattern t p = some t := by
  simp [applyPattern, h]

set_option maxRecDepth 1000000 in
set_option maxHeartbeats 4000000 in
/-- C4: on the input `Acts 2:12:16` the code outputs `Acts  :2-1216`,
not the claimed `Acts 2:12-16`: `standardize_invalid_range` reads the
punctuation group of `BOOK_PATTERN` as the chapter, the chapter as the
verse start, the verse start as the verse end and the verse end as the
marker. -/
theorem C4_invalid_range_output :
    standardize_textS "Acts 2:12:16" = some "Acts  :2-1216" ∧
    standardize_textS "Acts 2:12:16" ≠ some "Acts 2:12-16" := by
  refine ⟨by decide, ?_⟩
  intro h
  simp only [show standardize_textS "Acts 2:12:16" = some "Acts  :2-1216" from by decide] at h
  exact absurd h (by decide)

set_option maxRecDepth 1000000 in
set_option maxHeartbeats 4000000 in
/-- C5: on the input `John chapter 3 verse 16` the code outputs
`John :3-16`, not the claimed `John 3:16`: `standardize_reference` reads
the punctuation group of `BOOK_PATTERN` (group 2) as the chapter, so the
chapter is empty and the real chapter and verse shift into the
verse-start and verse-end slots. -/
theorem C5_verbose_dialect_output :
    standardize_textS "John chapter 3 verse 16" = some "John :3-16" ∧
    (some "John :3-16" : Option String) ≠ some "John 3:16" := by
  exact ⟨by decide, by decide⟩

set_option maxRecDepth 1000000 in
set_option maxHeartbeats 4000000 in
/-- C6: on the input `Psalm 23` the code outputs `Psalm :1`, not the
claimed `Psalm 23:1`: `standardize_standalone_chapter` reads the
punctuation group (group 2, empty here) as the chapter and the chapter
digits `23` (group 3) as the marker, which is then swallowed because the
matched text ends with `23`. -/
theorem C6_standalone_chapter_output :
    standardize_textS "Psalm 23" = some "Psalm :1" ∧
    (some "Psalm :1" : Option String) ≠ some "Psalm 23:1" := by
  exact ⟨by decide, by decide⟩

set_option maxRecDepth 1000000 in
set_option maxHeartbeats 4000000 in
/-- C7: on the input `(Gal 3:27, 4:1)` the code outputs
`(Galatians 3:27, 4:1)`: the second item is kept verbatim and does not
inherit the book Galatians, because `parse_reference_components`
returns `None` on `4:1` (no book prefix can match before the colon) and
the last-ditch branch finds no trailing chapter number either. -/
theorem C7_group_no_carry_forward :
    standardize_textS "(Gal 3:27, 4:1)" = some "(Galatians 3:27, 4:1)" ∧
    (some "(Galatians 3:27, 4:1)" : Option String) ≠ some "(Galatians 3:27, Galatians 4:1)" := by
  exact ⟨by decide, by decide⟩

set_option maxRecDepth 1000000 in
set_option maxHeartbeats 4000000 in
/-- C8: on the input `Jude 5*`, which contains exactly one marker `*`
adjacent to the citation, the code outputs `Jude :15`, which contains no
`*` at all: `standardize_standalone_chapter` reads the chapter digits
`5` (group 3) as the marker and appends them, and the real marker group
(group 4) is never consulted. -/
theorem C8_marker_dropped :
    standardize_textS "Jude 5*" = some "Jude :15" ∧
    ("Jude :15".toList.contains '*') = false ∧
    ("Jude 5*".toList.contains '*') = true := by
  exact ⟨by decide, by decide, by decide⟩

set_option maxRecDepth 1000000 in
set_option maxHeartbeats 8000000 in
/-- C1: `standardize_text` is not idempotent.  On the input
`Gal 3:27-28*` one application gives `Galatians 3:27-28*28`
(`standardize_reference` reads the verse-end group 5 as the marker and
appends it), and a second application gives `Galatians 3:27-28*2828`,
a different string. -/
theorem C1_not_idempotent :
    standardize_textS "Gal 3:27-28*" = some "Galatians 3:27-28*28" ∧
    standardize_textS "Galatians 3:27-28*28" = some "Galatians 3:27-28*2828" ∧
    (some "Galatians 3:27-28*2828" : Option String) ≠ some "Galatians 3:27-28*28" := by
  exact ⟨by decide, by decide, by decide⟩

set_option maxRecDepth 1000000 in
set_option maxHeartbeats 8000000 in
/-- C3: rewriting one matched span alters text elsewhere.  On
`XGal 3:27 and Gal 3:27`, the only span the colon pattern matches is the
trailing `Gal 3:27` (no word boundary exists inside `XGal`), yet the
output also rewrites the characters inside `XGal 3:27`, because
`standardize_text` splices with the global `str.replace`, which replaces
every occurrence of the matched text. -/
theorem C3_corrupts_outside_span :
    standardize_textS "XGal 3:27 and Gal 3:27" = some "XGalatians 3:27 and Galatians 3:27" ∧
    (finditer pat3 ("XGal 3:27 and Gal 3:27".toList)).map (fun t => (t.1, t.2.1)) = [(14, 22)] ∧
    (("XGal 3:27 and ".toList).isPrefixOf ("XGalatians 3:27 and Galatians 3:27".toList)) = false := by
  exact ⟨by decide, by decide, by decide⟩

set_option maxRecDepth 100000 in
/-- C9: lexicon resolution is not closed over canonical names.  The key
`1tim.` is in the lexicon (mapping to `1 Timothy`), but resolving it
strips the trailing period before lookup, misses the dictionary (no key
`1tim` exists) and falls back to title-casing, returning `1Tim`, which is
not a value of the lexicon at all — in particular not one of the 66
canonical names.  Moreover the synonym keys `ps` and `pss` for the same
book resolve to the distinct strings `Psalm` and `Psalms`. -/
theorem C9_lexicon_resolution_fails :
    standardize_book_name (sL "1tim.") = sL "1Tim" ∧
    booksL.lookup (sL "1tim.") = some (sL "1 Timothy") ∧
    ((booksL.map Prod.snd).contains (sL "1Tim")) = false ∧
    standardize_book_name (sL "ps") = sL "Psalm" ∧
    standardize_book_name (sL "pss") = sL "Psalms" := by
  exact ⟨by decide, by decide, by decide, by decide, by decide⟩

/-- C10: identity on citation-free text.  If `BOOK_PATTERN` (a lexicon
key at a word boundary, case-insensitively, with its optional trailing
punctuation) matches at no position of the input, and the input contains
no left parenthesis, then `standardize_text` returns the input
unchanged (and in particular raises nothing). -/
theorem C10_identity_on_citation_free_text (s : List Char)
    (hbook : findFrom bookRE s 0 = none)
    (hparen : s.contains '(' = false) :
    standardize_text s = some s := by
  have hB : ∀ i, i ≤ s.length → matchAt bookRE s i = none := by
    intro i hi
    have hmem : i ∈ List.range' 0 (s.length + 1 - 0) := by
      rw [List.mem_range'_1]
      omega
    have := (List.findSome?_eq_none_iff.mp hbook) i hmem
    exact Option.map_eq_none'.mp this
  have hseq : ∀ rest : RE, ∀ i, i ≤ s.length → matchAt (.seq bookRE rest) s i = none := by
    intro rest i hi
    by_contra hne
    have h1 : (matchAt (.seq bookRE rest) s i).isSome := Option.ne_none_iff_isSome.mp hne
    have h2 := matchAt_seq_left h1
    rw [hB i hi] at h2
    exact absurd h2 (by simp)
  have h1 : finditer pat1 s = [] := by
    apply finditer_of_no_match
    intro i hi
    by_contra hne
    have := pat1_match_has_paren (Option.ne_none_iff_isSome.mp hne)
    rw [hparen] at this
    exact absurd this (by simp)
  have h2 : finditer pat2 s = [] := finditer_of_no_match (hseq _)
  have h3 : finditer pat3 s = [] := finditer_of_no_match (hseq _)
  have h4 : finditer pat4 s = [] := finditer_of_no_match (hseq _)
  have h5 : finditer pat5 s = [] := finditer_of_no_match (hseq _)
  have h6 : finditer pat6 s = [] := finditer_of_no_match (hseq _)
  have h7 : finditer pat7 s = [] := finditer_of_no_match (hseq _)
  have a1 := applyPattern_of_no_match s (pat1, process_parenthesized_references, 1) h1
  have a2 := applyPattern_of_no_match s (pat2, standardize_period_format, 6) h2
  have a3 := applyPattern_of_no_match s
    (pat3, (fun m => standardize_reference m false), 6) h3
  have a4 := applyPattern_of_no_match s
    (pat4, (fun m => standardize_reference m true), 6) h4
  have a5 := applyPattern_of_no_match s
    (pat5, (fun m => standardize_reference m true), 6) h5
  have a6 := applyPattern_of_no_match s (pat6, standardize_standalone_chapter, 4) h6
  have a7 := applyPattern_of_no_match s (pat7, standardize_invalid_range, 6) h7
  show PATTERNS.foldlM applyPattern s = some s
  rw [PATTERNS]
  simp only [List.foldlM_cons, List.foldlM_nil, a1, a2, a3, a4, a5, a6, a7, Option.bind_eq_bind,
    Option.some_bind]
  rfl

set_option maxRecDepth 1000000 in
set_option maxHeartbeats 4000000 in
/-- C10 witness: the citation-free text `foo bar` satisfies both
hypotheses and is returned unchanged. -/
theorem C10_identity_witness :
    findFrom bookRE ("foo bar".toList) 0 = none ∧
    ("foo bar".toList).contains '(' = false ∧
    standardize_text ("foo bar".toList) = some ("foo bar".toList) :=
  have hb : (findFrom bookRE ("foo bar".toList) 0).isNone = true := by decide
  ⟨Option.isNone_iff_eq_none.mp hb, by decide,
    C10_identity_on_citation_free_text ("foo bar".toList)
      (Option.isNone_iff_eq_none.mp hb) (by decide)⟩

/-! ## Metatheory for totality (claim C2)

The rewrite functions of the source dereference `match.group(1)`,
`match.group(2)` and an inner `re.match(BOOK_PATTERN, ...)` without
guarding; the lemmas below show those dereferences always succeed on a
match of the corresponding pattern, so no exception can arise. -/

theorem orElse_isSome_eq {α : Type} (x : Option α) (f : Unit → Option α) :
    (x.orElse f).isSome = (x.isSome || (f ()).isSome) := by
  rcases x with _ | a <;> rfl

theorem findSome?_isSome_any {α β : Type} (l : List α) (f : α → Option β) :
    (l.findSome? f).isSome = l.any (fun a => (f a).isSome) := by
  induction l with
  | nil => rfl
  | cons x xs ih =>
    rw [List.findSome?_cons]
    rcases hx : f x with _ | b <;> simp [hx, ih]

/-- Success of the matcher depends neither on the incoming group store
nor on anything of the continuation beyond its success function
(matching never reads groups: the source's patterns have no
backreferences). -/
theorem matchRE_isSome_congr (s : List Char) (r : RE) :
    ∀ (i : Nat) (g g' : Groups) (k k' : Nat → Groups → Option MRes),
      (∀ j h h', (k j h).isSome = (k' j h').isSome) →
      (matchRE s r i g k).isSome = (matchRE s r i g' k').isSome := by
  induction r with
  | fail => intro i g g' k k' hk; rfl
  | eps => intro i g g' k k' hk; exact hk i g g'
  | cls p =>
    intro i g g' k k' hk
    simp only [matchRE]
    split
    · exact hk _ g g'
    · rfl
  | lit cs =>
    intro i g g' k k' hk
    simp only [matchRE]
    split
    · exact hk _ g g'
    · rfl
  | seq a b iha ihb =>
    intro i g g' k k' hk
    simp only [matchRE]
    exact iha i g g' _ _ (fun j h h' => ihb j h h' k k' hk)
  | alt a b iha ihb =>
    intro i g g' k k' hk
    simp only [matchRE]
    rw [orElse_isSome_eq, orElse_isSome_eq, iha i g g' k k' hk, ihb i g g' k k' hk]
  | opt a iha =>
    intro i g g' k k' hk
    simp only [matchRE]
    rw [orElse_isSome_eq, orElse_isSome_eq, iha i g g' k k' hk, hk i g g']
  | star p =>
    intro i g g' k k' hk
    simp only [matchRE]
    rw [findSome?_isSome_any, findSome?_isSome_any]
    exact congrArg _ (funext fun b => hk b g g')
  | plus p =>
    intro i g g' k k' hk
    simp only [matchRE]
    rw [findSome?_isSome_any, findSome?_isSome_any]
    exact congrArg _ (funext fun b => hk b g g')
  | plusLazy p =>
    intro i g g' k k' hk
    simp only [matchRE]
    rw [findSome?_isSome_any, findSome?_isSome_any]
    exact congrArg _ (funext fun b => hk b g g')
  | grp n a iha =>
    intro i g g' k k' hk
    simp only [matchRE]
    exact iha i g g' _ _ (fun j h h' => hk j _ _)
  | wb =>
    intro i g g' k k' hk
    simp only [matchRE]
    split
    · exact hk i g g'
    · rfl
  | eos =>
    intro i g g' k k' hk
    simp only [matchRE]
    split
    · exact hk i g g'
    · rfl
  | nla a iha =>
    intro i g g' k k' hk
    simp only [matchRE]
    have hg := iha i g g' (fun j g2 => some (j, g2)) (fun j g2 => some (j, g2))
      (fun _ _ _ => rfl)
    rw [hg]
    split
    · rfl
    · exact hk i g g'
  | pla a iha =>
    intro i g g' k k' hk
    simp only [matchRE]
    have hg := iha i g g' (fun j g2 => some (j, g2)) (fun j g2 => some (j, g2))
      (fun _ _ _ => rfl)
    rw [hg]
    split
    · exact hk i g g'
    · rfl

theorem blindK_top : blindK (fun j g => some (j, g)) := fun _ _ _ => rfl

theorem blindK_matchRE (s : List Char) (r : RE) (k : Nat → Groups → Option MRes)
    (hk : blindK k) : blindK (fun j h => matchRE s r j h k) :=
  fun j h h' => matchRE_isSome_congr s r j h h' k k (fun j2 h2 h2' => hk j2 h2 h2')

theorem insertG_self_isSome (n : Nat) (v : Nat × Nat) (h : Groups) :
    ((insertG n v h) n).isSome := by
  simp [insertG]

theorem insertG_other (n m : Nat) (hnm : n ≠ m) (v : Nat × Nat) (h : Groups) :
    (insertG m v h) n = h n := by
  simp [insertG, hnm]

theorem insertG_mono {n : Nat} (m : Nat) (v : Nat × Nat) {h : Groups}
    (hh : (h n).isSome) : ((insertG m v h) n).isSome := by
  unfold insertG
  split
  · rfl
  · exact hh

/-- Continuation congruence on stores with group `n` set: since the
engine only ever inserts group entries, a continuation is only invoked
at stores extending the initial one. -/
theorem matchRE_congrOn (s : List Char) (n : Nat) (r : RE) :
    ∀ (i : Nat) (g : Groups) (k k' : Nat → Groups → Option MRes),
      (g n).isSome → (∀ j h, (h n).isSome → k j h = k' j h) →
      matchRE s r i g k = matchRE s r i g k' := by
  induction r with
  | fail => intro i g k k' hg hk; rfl
  | eps => intro i g k k' hg hk; exact hk i g hg
  | cls p =>
    intro i g k k' hg hk
    simp only [matchRE]
    split
    · exact hk _ g hg
    · rfl
  | lit cs =>
    intro i g k k' hg hk
    simp only [matchRE]
    split
    · exact hk _ g hg
    · rfl
  | seq a b iha ihb =>
    intro i g k k' hg hk
    simp only [matchRE]
    exact iha i g _ _ hg (fun j h hh => ihb j h k k' hh hk)
  | alt a b iha ihb =>
    intro i g k k' hg hk
    simp only [matchRE]
    rw [iha i g k k' hg hk, ihb i g k k' hg hk]
  | opt a iha =>
    intro i g k k' hg hk
    simp only [matchRE]
    rw [iha i g k k' hg hk, hk i g hg]
  | star p =>
    intro i g k k' hg hk
    simp only [matchRE]
    congr 1
    funext b
    exact hk b g hg
  | plus p =>
    intro i g k k' hg hk
    simp only [matchRE]
    congr 1
    funext b
    exact hk b g hg
  | plusLazy p =>
    intro i g k k' hg hk
    simp only [matchRE]
    congr 1
    funext b
    exact hk b g hg
  | grp m a iha =>
    intro i g k k' hg hk
    simp only [matchRE]
    exact iha i g _ _ hg (fun j h hh => hk j _ (insertG_mono m (i, j) hh))
  | wb =>
    intro i g k k' hg hk
    simp only [matchRE]
    split
    · exact hk i g hg
    · rfl
  | eos =>
    intro i g k k' hg hk
    simp only [matchRE]
    split
    · exact hk i g hg
    · rfl
  | nla a iha =>
    intro i g k k' hg hk
    simp only [matchRE]
    split
    · rfl
    · exact hk i g hg
  | pla a iha =>
    intro i g k k' hg hk
    simp only [matchRE]
    split
    · exact hk i g hg
    · rfl

/-- Gating the continuation on group `n` changes nothing when `n` is
already set. -/
theorem matchRE_gate_of_set (s : List Char) (n : Nat) (r : RE) (i : Nat) (g : Groups)
    (k : Nat → Groups → Option MRes) (hg : (g n).isSome) :
    matchRE s r i g k = matchRE s r i g (gateK n k) :=
  matchRE_congrOn s n r i g k (gateK n k) hg
    (fun j h hh => by unfold gateK; rw [if_pos hh])

theorem mem_starCands {b i m : Nat} (hb : b ∈ starCands i m) : i ≤ b ∧ b ≤ i + m := by
  simp only [starCands, List.mem_map, List.mem_reverse, List.mem_range] at hb
  obtain ⟨t, ht, rfl⟩ := hb
  omega

theorem mem_plusCands {b i m : Nat} (hb : b ∈ plusCands i m) : i + 1 ≤ b ∧ b ≤ i + m := by
  simp only [plusCands, List.mem_map, List.mem_reverse, List.mem_range] at hb
  obtain ⟨t, ht, rfl⟩ := hb
  omega

theorem mem_lazyCands {b i m : Nat} (hb : b ∈ lazyCands i m) : i + 1 ≤ b ∧ b ≤ i + m := by
  simp only [lazyCands, List.mem_map, List.mem_range] at hb
  obtain ⟨t, ht, rfl⟩ := hb
  omega

theorem self_mem_starCands (i m : Nat) : i ∈ starCands i m := by
  simp only [starCands, List.mem_map, List.mem_reverse, List.mem_range]
  exact ⟨0, by omega, by omega⟩

/-- Every result of the matcher arises from a continuation call at some
position at or beyond the start. -/
theorem matchRE_reaches_cont (s : List Char) (r : RE) :
    ∀ (i : Nat) (g : Groups) (k : Nat → Groups → Option MRes) (res : MRes),
      matchRE s r i g k = some res → ∃ j h, i ≤ j ∧ k j h = some res := by
  induction r with
  | fail => intro i g k res h; exact absurd h (by simp [matchRE])
  | eps => intro i g k res h; exact ⟨i, g, le_refl i, h⟩
  | cls p =>
    intro i g k res h
    simp only [matchRE] at h
    split at h
    · exact ⟨i + 1, g, by omega, h⟩
    · exact absurd h (by simp)
  | lit cs =>
    intro i g k res h
    simp only [matchRE] at h
    split at h
    · exact ⟨i + cs.length, g, by omega, h⟩
    · exact absurd h (by simp)
  | seq a b iha ihb =>
    intro i g k res h
    simp only [matchRE] at h
    obtain ⟨j1, h1, hle1, hc1⟩ := iha i g _ res h
    obtain ⟨j2, h2, hle2, hc2⟩ := ihb j1 h1 k res hc1
    exact ⟨j2, h2, le_trans hle1 hle2, hc2⟩
  | alt a b iha ihb =>
    intro i g k res h
    simp only [matchRE] at h
    rcases hx : matchRE s a i g k with _ | v
    · rw [hx] at h
      exact ihb i g k res h
    · rw [hx] at h
      simp only [Option.orElse] at h
      have hv : v = res := by injection h
      rw [hv] at hx
      exact iha i g k res hx
  | opt a iha =>
    intro i g k res h
    simp only [matchRE] at h
    rcases hx : matchRE s a i g k with _ | v
    · rw [hx] at h
      exact ⟨i, g, le_refl i, h⟩
    · rw [hx] at h
      simp only [Option.orElse] at h
      have hv : v = res := by injection h
      rw [hv] at hx
      exact iha i g k res hx
  | star p =>
    intro i g k res h
    simp only [matchRE] at h
    obtain ⟨b, hb, hk⟩ := List.exists_of_findSome?_eq_some h
    exact ⟨b, g, (mem_starCands hb).1, hk⟩
  | plus p =>
    intro i g k res h
    simp only [matchRE] at h
    obtain ⟨b, hb, hk⟩ := List.exists_of_findSome?_eq_some h
    exact ⟨b, g, by have := (mem_plusCands hb).1; omega, hk⟩
  | plusLazy p =>
    intro i g k res h
    simp only [matchRE] at h
    obtain ⟨b, hb, hk⟩ := List.exists_of_findSome?_eq_some h
    exact ⟨b, g, by have := (mem_lazyCands hb).1; omega, hk⟩
  | grp n a iha =>
    intro i g k res h
    simp only [matchRE] at h
    obtain ⟨j, h2, hle, hc⟩ := iha i g _ res h
    exact ⟨j, insertG n (i, j) h2, hle, hc⟩
  | wb =>
    intro i g k res h
    simp only [matchRE] at h
    split at h
    · exact ⟨i, g, le_refl i, h⟩
    · exact absurd h (by simp)
  | eos =>
    intro i g k res h
    simp only [matchRE] at h
    split at h
    · exact ⟨i, g, le_refl i, h⟩
    · exact absurd h (by simp)
  | nla a iha =>
    intro i g k res h
    simp only [matchRE] at h
    split at h
    · exact absurd h (by simp)
    · exact ⟨i, g, le_refl i, h⟩
  | pla a iha =>
    intro i g k res h
    simp only [matchRE] at h
    split at h
    · exact ⟨i, g, le_refl i, h⟩
    · exact absurd h (by simp)

/-- If `mustSet r n`, a match of `r` may be run against the gated
continuation without changing the result: every continuation call has
group `n` recorded. -/
theorem matchRE_gate_mustSet (s : List Char) (n : Nat) (r : RE) :
    mustSet r n = true →
    ∀ (i : Nat) (g : Groups) (k : Nat → Groups → Option MRes),
      matchRE s r i g k = matchRE s r i g (gateK n k) := by
  induction r with
  | fail => intro _ i g k; rfl
  | eps => intro hms; exact absurd hms (by simp [mustSet])
  | cls p => intro hms; exact absurd hms (by simp [mustSet])
  | lit cs => intro hms; exact absurd hms (by simp [mustSet])
  | seq a b iha ihb =>
    intro hms i g k
    simp only [mustSet, Bool.or_eq_true] at hms
    simp only [matchRE]
    rcases hms with ha | hb
    · rw [iha ha i g (fun j h => matchRE s b j h k),
          iha ha i g (fun j h => matchRE s b j h (gateK n k))]
      congr 1
      funext j h
      show gateK n (fun j h => matchRE s b j h k) j h =
        gateK n (fun j h => matchRE s b j h (gateK n k)) j h
      unfold gateK
      split
      · rename_i hset
        exact matchRE_gate_of_set s n b j h k hset
      · rfl
    · congr 1
      funext j h
      exact ihb hb j h k
  | alt a b iha ihb =>
    intro hms i g k
    simp only [mustSet, Bool.and_eq_true] at hms
    simp only [matchRE]
    rw [iha hms.1 i g k, ihb hms.2 i g k]
  | opt a iha => intro hms; exact absurd hms (by simp [mustSet])
  | star p => intro hms; exact absurd hms (by simp [mustSet])
  | plus p => intro hms; exact absurd hms (by simp [mustSet])
  | plusLazy p => intro hms; exact absurd hms (by simp [mustSet])
  | grp m a iha =>
    intro hms i g k
    simp only [matchRE]
    by_cases hnm : n = m
    · subst hnm
      congr 1
      funext j h
      unfold gateK
      rw [if_pos (insertG_self_isSome n (i, j) h)]
    · simp only [mustSet, Bool.or_eq_true, decide_eq_true_eq] at hms
      rcases hms with h1 | ha
      · exact absurd h1 hnm
      · rw [iha ha i g (fun j h => k j (insertG m (i, j) h))]
        congr 1
        funext j h
        unfold gateK
        rw [insertG_other n m hnm (i, j) h]
  | wb => intro hms; exact absurd hms (by simp [mustSet])
  | eos => intro hms; exact absurd hms (by simp [mustSet])
  | nla a iha => intro hms; exact absurd hms (by simp [mustSet])
  | pla a iha => intro hms; exact absurd hms (by simp [mustSet])

/-- A successful anchored match of a pattern that must set group `n`
records group `n` in the resulting store. -/
theorem matchAt_grp_isSome {r : RE} {n : Nat} (hms : mustSet r n = true)
    {s : List Char} {i e : Nat} {gf : Groups}
    (h : matchAt r s i = some (e, gf)) : (gf n).isSome := by
  rw [matchAt, matchRE_gate_mustSet s n r hms] at h
  obtain ⟨j, h2, _, hk⟩ := matchRE_reaches_cont s r i emptyG _ _ h
  unfold gateK at hk
  split at hk
  · rename_i hset
    have h3 : (j, h2) = (e, gf) := by injection hk
    have h4 : h2 = gf := congrArg Prod.snd h3
    rw [← h4]
    exact hset
  · exact absurd hk (by simp)

/-- Gating through an optional captured star: the skip branch can only
win if the zero-width capture branch also failed, and (with a blind
continuation) then nothing wins, so the gate may be inserted. -/
theorem opt_grp_star_gate (s : List Char) (n : Nat) (p : Char → Bool) (i : Nat)
    (g : Groups) (k : Nat → Groups → Option MRes) (hb : blindK k) :
    matchRE s (.opt (.grp n (.star p))) i g k =
      matchRE s (.opt (.grp n (.star p))) i g (gateK n k) := by
  simp only [matchRE]
  have hfs : (List.findSome? (fun b => gateK n k b (insertG n (i, b) g))
        (starCands i (maxRun s p i)))
      = (List.findSome? (fun b => k b (insertG n (i, b) g)) (starCands i (maxRun s p i))) := by
    congr 1
    funext b
    unfold gateK
    rw [if_pos (insertG_self_isSome n (i, b) g)]
  rw [hfs]
  rcases hA : List.findSome? (fun b => k b (insertG n (i, b) g))
      (starCands i (maxRun s p i)) with _ | v
  · have hzero : k i (insertG n (i, i) g) = none :=
      List.findSome?_eq_none_iff.mp hA i (self_mem_starCands i (maxRun s p i))
    have hnone : k i g = none := by
      have hiff := hb i (insertG n (i, i) g) g
      rw [hzero] at hiff
      rcases hx : k i g with _ | w
      · rfl
      · rw [hx] at hiff
        simp at hiff
    show k i g = gateK n k i g
    rw [hnone]
    unfold gateK
    split
    · rw [hnone]
    · rfl
  · rfl

theorem matchRE_seq_unfold (s : List Char) (a b : RE) (i : Nat) (g : Groups)
    (k : Nat → Groups → Option MRes) :
    matchRE s (.seq a b) i g k = matchRE s a i g (fun j g2 => matchRE s b j g2 k) := rfl

theorem matchRE_grp_unfold (s : List Char) (n : Nat) (a : RE) (i : Nat) (g : Groups)
    (k : Nat → Groups → Option MRes) :
    matchRE s (.grp n a) i g k =
      matchRE s a i g (fun j g2 => k j (insertG n (i, j) g2)) := rfl

theorem matchRE_wb_unfold (s : List Char) (i : Nat) (g : Groups)
    (k : Nat → Groups → Option MRes) :
    matchRE s .wb i g k = if boundaryAt s i then k i g else none := rfl

/-- Group 2 of `BOOK_PATTERN` (the optional trailing-punctuation group)
participates in every successful match of `BOOK_PATTERN` followed by
anything: the group is optional, but its zero-width capture branch is
preferred over skipping. -/
theorem g2_participates (rest : RE) (s : List Char) (i : Nat) {e : Nat} {gf : Groups}
    (h : matchAt (.seq bookRE rest) s i = some (e, gf)) : (gf 2).isSome := by
  rw [matchAt, matchRE_seq_unfold] at h
  rw [show bookRE =
    RE.seq .wb (.seq (.grp 1 bookAlt) (.seq (.opt (.grp 2 (.star punctCls))) .wb)) from rfl] at h
  rw [matchRE_seq_unfold, matchRE_wb_unfold] at h
  split at h
  case isFalse => exact absurd h (by simp)
  case isTrue =>
    rw [matchRE_seq_unfold, matchRE_grp_unfold] at h
    obtain ⟨a, h1, _, hc⟩ := matchRE_reaches_cont s bookAlt i emptyG _ _ h
    have hc2 : matchRE s (.seq (.opt (.grp 2 (.star punctCls))) .wb) a (insertG 1 (i, a) h1)
        (fun j g2 => matchRE s rest j g2 (fun j2 g3 => some (j2, g3))) = some (e, gf) := hc
    rw [matchRE_seq_unfold] at hc2
    have hblind : blindK (fun c h3 => matchRE s .wb c h3
        (fun j g2 => matchRE s rest j g2 (fun j2 g3 => some (j2, g3)))) :=
      blindK_matchRE s .wb _ (blindK_matchRE s rest _ blindK_top)
    rw [opt_grp_star_gate s 2 punctCls a (insertG 1 (i, a) h1) _ hblind] at hc2
    obtain ⟨c, h3, _, hc3⟩ := matchRE_reaches_cont s _ a (insertG 1 (i, a) h1) _ _ hc2
    unfold gateK at hc3
    split at hc3
    case isFalse => exact absurd hc3 (by simp)
    case isTrue hset3 =>
      have hc3b : matchRE s .wb c h3
          (fun j g2 => matchRE s rest j g2 (fun j2 g3 => some (j2, g3))) = some (e, gf) := hc3
      rw [matchRE_gate_of_set s 2 .wb c h3 _ hset3] at hc3b
      obtain ⟨d, h4, _, hc4⟩ := matchRE_reaches_cont s .wb c h3 _ _ hc3b
      unfold gateK at hc4
      split at hc4
      case isFalse => exact absurd hc4 (by simp)
      case isTrue hset4 =>
        have hc4b : matchRE s rest d h4 (fun j2 g3 => some (j2, g3)) = some (e, gf) := hc4
        rw [matchRE_gate_of_set s 2 rest d h4 _ hset4] at hc4b
        obtain ⟨f, h5, _, hc5⟩ := matchRE_reaches_cont s rest d h4 _ _ hc4b
        unfold gateK at hc5
        split at hc5
        case isFalse => exact absurd hc5 (by simp)
        case isTrue hset5 =>
          have h6 : (f, h5) = (e, gf) := by injection hc5
          have h7 : h5 = gf := congrArg Prod.snd h6
          rw [← h7]
          exact hset5

theorem matchRE_opt_unfold (s : List Char) (a : RE) (i : Nat) (g : Groups)
    (k : Nat → Groups → Option MRes) :
    matchRE s (.opt a) i g k = (matchRE s a i g k).orElse (fun _ => k i g) := rfl

theorem matchRE_star_unfold (s : List Char) (p : Char → Bool) (i : Nat) (g : Groups)
    (k : Nat → Groups → Option MRes) :
    matchRE s (.star p) i g k =
      (starCands i (maxRun s p i)).findSome? (fun b => k b g) := rfl

theorem matchRE_plus_unfold (s : List Char) (p : Char → Bool) (i : Nat) (g : Groups)
    (k : Nat → Groups → Option MRes) :
    matchRE s (.plus p) i g k =
      (plusCands i (maxRun s p i)).findSome? (fun b => k b g) := rfl

theorem matchRE_lit_unfold (s : List Char) (cs : List Char) (i : Nat) (g : Groups)
    (k : Nat → Groups → Option MRes) :
    matchRE s (.lit cs) i g k = if litEq s i cs then k (i + cs.length) g else none := rfl

/-- Inversion of a folded alternation of literals: some alternative
matched and its continuation succeeded. -/
theorem altFold_inv (s : List Char) :
    ∀ (l : List String) (i : Nat) (g : Groups) (k : Nat → Groups → Option MRes) (res : MRes),
      matchRE s (l.foldr (fun key acc => .alt (.lit key.toList) acc) .fail) i g k = some res →
      ∃ key ∈ l, litEq s i key.toList = true ∧ k (i + key.toList.length) g = some res := by
  intro l
  induction l with
  | nil => intro i g k res h; exact absurd h (by simp [matchRE])
  | cons x xs ih =>
    intro i g k res h
    rw [List.foldr_cons] at h
    rcases hx : matchRE s (.lit x.toList) i g k with _ | v
    · have h2 : matchRE s (xs.foldr (fun key acc => .alt (.lit key.toList) acc) .fail) i g k
          = some res := by
        have h3 := h
        rw [show matchRE s (.alt (.lit x.toList)
            (xs.foldr (fun key acc => .alt (.lit key.toList) acc) .fail)) i g k
          = (matchRE s (.lit x.toList) i g k).orElse
            (fun _ => matchRE s (xs.foldr (fun key acc => .alt (.lit key.toList) acc) .fail) i g k)
          from rfl, hx] at h3
        exact h3
      obtain ⟨key, hmem, hlit, hk⟩ := ih i g k res h2
      exact ⟨key, List.mem_cons_of_mem x hmem, hlit, hk⟩
    · have h2 : some v = some res := by
        have h3 := h
        rw [show matchRE s (.alt (.lit x.toList)
            (xs.foldr (fun key acc => .alt (.lit key.toList) acc) .fail)) i g k
          = (matchRE s (.lit x.toList) i g k).orElse
            (fun _ => matchRE s (xs.foldr (fun key acc => .alt (.lit key.toList) acc) .fail) i g k)
          from rfl, hx] at h3
        exact h3
      have hv : v = res := by injection h2
      rw [hv] at hx
      rw [matchRE_lit_unfold] at hx
      split at hx
      · rename_i hlit
        exact ⟨x, List.mem_cons_self x xs, hlit, hx⟩
      · exact absurd hx (by simp)

/-- Construction for a folded alternation of literals: any alternative
whose literal matches and whose continuation succeeds yields a match. -/
theorem altFold_fwd (s : List Char) :
    ∀ (l : List String) (i : Nat) (g : Groups) (k : Nat → Groups → Option MRes) (key : String),
      key ∈ l → litEq s i key.toList = true → (k (i + key.toList.length) g).isSome →
      (matchRE s (l.foldr (fun key acc => .alt (.lit key.toList) acc) .fail) i g k).isSome := by
  intro l
  induction l with
  | nil => intro i g k key hmem; exact absurd hmem (List.not_mem_nil key)
  | cons x xs ih =>
    intro i g k key hmem hlit hk
    simp only [List.foldr_cons, matchRE]
    rw [orElse_isSome_eq]
    rcases List.mem_cons.mp hmem with rfl | hmem2
    · apply Bool.or_eq_true_iff.mpr
      left
      simp only [matchRE_lit_unfold, hlit, if_true]
      exact hk
    · apply Bool.or_eq_true_iff.mpr
      right
      exact ih i g k key hmem2 hlit hk

theorem takeWhile_get? {p : Char → Bool} :
    ∀ (l : List Char) (q : Nat), q < (l.takeWhile p).length →
      ∃ c, l.get? q = some c ∧ p c = true := by
  intro l
  induction l with
  | nil => intro q hq; simp at hq
  | cons c rest ih =>
    intro q hq
    by_cases hp : p c
    · rw [List.takeWhile_cons, if_pos hp] at hq
      rcases q with _ | q'
      · exact ⟨c, rfl, hp⟩
      · obtain ⟨d, hd, hpd⟩ := ih q' (by simpa using hq)
        exact ⟨d, hd, hpd⟩
    · rw [List.takeWhile_cons, if_neg hp] at hq
      simp at hq

theorem takeWhile_len_ge {p : Char → Bool} :
    ∀ (l : List Char) (t : Nat),
      (∀ q, q < t → ∃ c, l.get? q = some c ∧ p c = true) → t ≤ (l.takeWhile p).length := by
  intro l
  induction l with
  | nil =>
    intro t ht
    rcases t with _ | t'
    · simp
    · obtain ⟨c, hc, _⟩ := ht 0 (by omega)
      simp at hc
  | cons c rest ih =>
    intro t ht
    rcases t with _ | t'
    · simp
    · obtain ⟨d, hd, hpd⟩ := ht 0 (by omega)
      have hdc : d = c := by
        simp only [List.get?] at hd
        exact (Option.some.inj hd).symm
      rw [hdc] at hpd
      rw [List.takeWhile_cons, if_pos hpd]
      have := ih t' (fun q hq => by
        obtain ⟨e, he, hpe⟩ := ht (q + 1) (by omega)
        exact ⟨e, by simpa using he, hpe⟩)
      simp
      omega

theorem maxRun_sat {s : List Char} {p : Char → Bool} {i q : Nat}
    (hq : q < maxRun s p i) : ∃ c, s.get? (i + q) = some c ∧ p c = true := by
  unfold maxRun at hq
  obtain ⟨c, hc, hpc⟩ := takeWhile_get? (s.drop i) q hq
  rw [List.get?_drop] at hc
  exact ⟨c, hc, hpc⟩

theorem maxRun_ge {s : List Char} {p : Char → Bool} {i t : Nat}
    (h : ∀ q, q < t → ∃ c, s.get? (i + q) = some c ∧ p c = true) : t ≤ maxRun s p i := by
  unfold maxRun
  apply takeWhile_len_ge
  intro q hq
  obtain ⟨c, hc, hpc⟩ := h q hq
  rw [← List.get?_drop] at hc
  exact ⟨c, hc, hpc⟩

theorem sliceL_get? (u : List Char) (i j q : Nat) (hq : q < j - i) :
    (sliceL u i j).get? q = u.get? (i + q) := by
  unfold sliceL
  rw [List.get?_take hq, List.get?_drop]

theorem wordAt_slice (u : List Char) (i j q : Nat) (hq : q < j - i) :
    wordAt (sliceL u i j) q = wordAt u (i + q) := by
  unfold wordAt
  rw [sliceL_get? u i j q hq]

theorem boundaryAt_slice (u : List Char) (i j q : Nat) (h0 : 0 < q) (hq : q < j - i) :
    boundaryAt (sliceL u i j) q = boundaryAt u (i + q) := by
  unfold boundaryAt
  rw [wordAt_slice u i j q hq, if_neg (by omega), if_neg (by omega),
    wordAt_slice u i j (q - 1) (by omega)]
  have harith : i + (q - 1) = i + q - 1 := by omega
  rw [harith]

theorem litEq_congr (s s' : List Char) :
    ∀ (cs : List Char) (i i' : Nat),
      (∀ t, t < cs.length → s'.get? (i' + t) = s.get? (i + t)) →
      litEq s' i' cs = litEq s i cs := by
  intro cs
  induction cs with
  | nil => intro i i' _; rfl
  | cons c rest ih =>
    intro i i' hal
    have h0 : s'.get? i' = s.get? i := by
      have := hal 0 (by simp)
      simpa using this
    show (match s'.get? i' with
      | some d => lowc d = lowc c && litEq s' (i' + 1) rest
      | none => false) = (match s.get? i with
      | some d => lowc d = lowc c && litEq s (i + 1) rest
      | none => false)
    rw [h0]
    rcases s.get? i with _ | d
    · rfl
    · have hrest : litEq s' (i' + 1) rest = litEq s (i + 1) rest := by
        apply ih
        intro t ht
        have := hal (t + 1) (by simpa using Nat.succ_lt_succ ht)
        have e1 : i' + (t + 1) = i' + 1 + t := by omega
        have e2 : i + (t + 1) = i + 1 + t := by omega
        rw [e1, e2] at this
        exact this
      rw [hrest]

theorem clsTest_true_iff {s : List Char} {p : Char → Bool} {i : Nat} :
    clsTest s p i = true ↔ ∃ c, s.get? i = some c ∧ p c = true := by
  unfold clsTest
  rcases h : s.get? i with _ | c
  · simp
  · simp

/-- A character that case-folds to a word character is a word
character (case-folding only moves upper-case letters, which are word
characters themselves). -/
theorem isWordC_of_lowc {d k0 : Char} (h : lowc d = k0) (hw : isWordC k0 = true) :
    isWordC d = true := by
  unfold lowc at h
  split at h
  · rename_i hAZ
    have h1 := hAZ.1
    have h2 := hAZ.2
    simp [isWordC, isAlphaC, h1, h2]
  · rw [h]
    exact hw

set_option maxRecDepth 100000 in
theorem bookKeys_head_ok : ((BIBLE_BOOKS.map Prod.fst).all keyHeadOk) = true := by decide

/-- Anchored reconstruction: a string starting with a lexicon key at a
word boundary, followed by a punctuation run up to another word
boundary, matches `BOOK_PATTERN` at position 0. -/
theorem bookRE_anchor (v : List Char) (key : String)
    (hmem : key ∈ BIBLE_BOOKS.map Prod.fst)
    (hw0 : boundaryAt v 0 = true)
    (hlit : litEq v 0 key.toList = true)
    (b : Nat) (hb1 : key.toList.length ≤ b)
    (hpunct : ∀ q, key.toList.length ≤ q → q < b → ∃ c, v.get? q = some c ∧ punctCls c = true)
    (hwb : boundaryAt v b = true) :
    (matchAt bookRE v 0).isSome := by
  rw [matchAt]
  rw [show bookRE =
    RE.seq .wb (.seq (.grp 1 bookAlt) (.seq (.opt (.grp 2 (.star punctCls))) .wb)) from rfl]
  rw [matchRE_seq_unfold, matchRE_wb_unfold, if_pos hw0]
  rw [matchRE_seq_unfold, matchRE_grp_unfold]
  apply altFold_fwd v (BIBLE_BOOKS.map Prod.fst) 0 emptyG _ key hmem hlit
  show (matchRE v (.seq (.opt (.grp 2 (.star punctCls))) .wb) (0 + key.toList.length)
    (insertG 1 (0, 0 + key.toList.length) emptyG) (fun j g2 => some (j, g2))).isSome
  rw [matchRE_seq_unfold, matchRE_opt_unfold, orElse_isSome_eq]
  apply Bool.or_eq_true_iff.mpr
  left
  rw [matchRE_grp_unfold, matchRE_star_unfold, findSome?_isSome_any]
  apply List.any_eq_true.mpr
  have hrun : b - key.toList.length ≤ maxRun v punctCls (0 + key.toList.length) := by
    apply maxRun_ge
    intro q hq
    obtain ⟨c, hc, hpc⟩ := hpunct (key.toList.length + q) (by omega) (by omega)
    refine ⟨c, ?_, hpc⟩
    rw [show 0 + key.toList.length + q = key.toList.length + q by omega]
    exact hc
  refine ⟨b, ?_, ?_⟩
  · simp only [starCands, List.mem_map, List.mem_reverse, List.mem_range]
    exact ⟨b - key.toList.length, by omega, by omega⟩
  · show (matchRE v .wb b
      (insertG 2 (0 + key.toList.length, b) (insertG 1 (0, 0 + key.toList.length) emptyG))
      (fun j g2 => some (j, g2))).isSome
    rw [matchRE_wb_unfold, if_pos hwb]
    rfl

/-- The matched text of any `BOOK_PATTERN\s*(\d+)…` pattern re-matches
`BOOK_PATTERN` anchored at its start: the inner
`re.match(BOOK_PATTERN, original_text)` of the rewrite functions never
fails. -/
theorem matchAt_book_rematch (p1 p2 : Char → Bool) (r2 : RE) (u : List Char) (i : Nat)
    {e : Nat} {gf : Groups}
    (h : matchAt (.seq bookRE (.seq (.star p1) (.seq (.grp 3 (.plus p2)) r2))) u i
      = some (e, gf)) :
    (matchAt bookRE (sliceL u i e) 0).isSome := by
  rw [matchAt, matchRE_seq_unfold] at h
  rw [show bookRE =
    RE.seq .wb (.seq (.grp 1 bookAlt) (.seq (.opt (.grp 2 (.star punctCls))) .wb)) from rfl] at h
  rw [matchRE_seq_unfold, matchRE_wb_unfold] at h
  split at h
  case isFalse => exact absurd h (by simp)
  case isTrue hbdi =>
  rw [matchRE_seq_unfold, matchRE_grp_unfold] at h
  obtain ⟨key, hkmem, hklit, hkc⟩ :=
    altFold_inv u (BIBLE_BOOKS.map Prod.fst) i emptyG _ (e, gf) h
  have hc2 : matchRE u (.seq (.opt (.grp 2 (.star punctCls))) .wb) (i + key.toList.length)
      (insertG 1 (i, i + key.toList.length) emptyG)
      (fun j g2 => matchRE u (.seq (.star p1) (.seq (.grp 3 (.plus p2)) r2)) j g2
        (fun j2 g3 => some (j2, g3))) = some (e, gf) := hkc
  rw [matchRE_seq_unfold, matchRE_opt_unfold] at hc2
  have hstep : ∃ b g2, i + key.toList.length ≤ b ∧
      (∀ q, i + key.toList.length ≤ q → q < b → ∃ c, u.get? q = some c ∧ punctCls c = true) ∧
      matchRE u .wb b g2
        (fun j g2 => matchRE u (.seq (.star p1) (.seq (.grp 3 (.plus p2)) r2)) j g2
          (fun j2 g3 => some (j2, g3))) = some (e, gf) := by
    rcases hx : matchRE u (.grp 2 (.star punctCls)) (i + key.toList.length)
        (insertG 1 (i, i + key.toList.length) emptyG)
        (fun c g3 => matchRE u .wb c g3
          (fun j g2 => matchRE u (.seq (.star p1) (.seq (.grp 3 (.plus p2)) r2)) j g2
            (fun j2 g3 => some (j2, g3)))) with _ | v
    · rw [hx] at hc2
      have hc3 : matchRE u .wb (i + key.toList.length)
          (insertG 1 (i, i + key.toList.length) emptyG)
          (fun j g2 => matchRE u (.seq (.star p1) (.seq (.grp 3 (.plus p2)) r2)) j g2
            (fun j2 g3 => some (j2, g3))) = some (e, gf) := hc2
      exact ⟨i + key.toList.length, _, le_refl _, fun q hq1 hq2 => absurd hq2 (by omega), hc3⟩
    · rw [hx] at hc2
      have hv : v = (e, gf) := by
        have hc3 : some v = some (e, gf) := hc2
        injection hc3
      rw [hv] at hx
      rw [matchRE_grp_unfold, matchRE_star_unfold] at hx
      obtain ⟨b, hbmem, hKb⟩ := List.exists_of_findSome?_eq_some hx
      obtain ⟨hab, hbm⟩ := mem_starCands hbmem
      have hKb2 : matchRE u .wb b
          (insertG 2 (i + key.toList.length, b) (insertG 1 (i, i + key.toList.length) emptyG))
          (fun j g2 => matchRE u (.seq (.star p1) (.seq (.grp 3 (.plus p2)) r2)) j g2
            (fun j2 g3 => some (j2, g3))) = some (e, gf) := hKb
      refine ⟨b, _, hab, ?_, hKb2⟩
      intro q hq1 hq2
      obtain ⟨c, hc, hpc⟩ := @maxRun_sat u punctCls (i + key.toList.length)
        (q - (i + key.toList.length)) (by omega)
      refine ⟨c, ?_, hpc⟩
      rw [show i + key.toList.length + (q - (i + key.toList.length)) = q by omega] at hc
      exact hc
  obtain ⟨b, g2, hab, hpunct, hwbm⟩ := hstep
  rw [matchRE_wb_unfold] at hwbm
  split at hwbm
  case isFalse => exact absurd hwbm (by simp)
  case isTrue hbdb =>
  rw [matchRE_seq_unfold, matchRE_star_unfold] at hwbm
  obtain ⟨c, hcmem, hcC⟩ := List.exists_of_findSome?_eq_some hwbm
  have hbc := (mem_starCands hcmem).1
  have hcC2 : matchRE u (.seq (.grp 3 (.plus p2)) r2) c g2
      (fun j2 g3 => some (j2, g3)) = some (e, gf) := hcC
  rw [matchRE_seq_unfold, matchRE_grp_unfold, matchRE_plus_unfold] at hcC2
  obtain ⟨d, hdmem, hdC⟩ := List.exists_of_findSome?_eq_some hcC2
  have hcd := (mem_plusCands hdmem).1
  have hdC2 : matchRE u r2 d (insertG 3 (c, d) g2) (fun j2 g3 => some (j2, g3))
      = some (e, gf) := hdC
  obtain ⟨f, h5, hdf, htop⟩ := matchRE_reaches_cont u r2 d _ _ _ hdC2
  have hfe : f = e := by
    have h6 : (f, h5) = (e, gf) := by
      have h7 : some (f, h5) = some (e, gf) := htop
      injection h7
    exact congrArg Prod.fst h6
  have hbe : b < e := by omega
  have hok : keyHeadOk key = true := List.all_eq_true.mp bookKeys_head_ok key hkmem
  rcases hkl : key.toList with _ | ⟨k0, krest⟩
  · unfold keyHeadOk at hok
    rw [hkl] at hok
    exact absurd hok (by simp)
  have hklen : 1 ≤ key.toList.length := by rw [hkl]; simp
  have hk0w : isWordC k0 = true ∧ lowc k0 = k0 := by
    unfold keyHeadOk at hok
    rw [hkl] at hok
    simp only [Bool.and_eq_true, decide_eq_true_eq] at hok
    exact hok
  have hd0 : ∃ d0, u.get? i = some d0 ∧ lowc d0 = lowc k0 := by
    rw [hkl] at hklit
    rcases hu : u.get? i with _ | d0
    · have hfl : litEq u i (k0 :: krest) = false := by
        show (match u.get? i with
          | some d => lowc d = lowc k0 && litEq u (i + 1) krest
          | none => false) = false
        rw [hu]
      rw [hklit] at hfl
      exact absurd hfl (by simp)
    · refine ⟨d0, rfl, ?_⟩
      have h8 : (lowc d0 = lowc k0 && litEq u (i + 1) krest) = true := by
        have h9 : litEq u i (k0 :: krest)
            = (lowc d0 = lowc k0 && litEq u (i + 1) krest) := by
          show (match u.get? i with
            | some d => lowc d = lowc k0 && litEq u (i + 1) krest
            | none => false) = _
          rw [hu]
        rw [← h9]
        exact hklit
      simp only [Bool.and_eq_true, decide_eq_true_eq] at h8
      exact h8.1
  rcases hd0 with ⟨d0, hu0, hld0⟩
  rcases hd0f : litEq u i (k0 :: krest) with _ | _
  · rw [hkl] at hklit
    rw [hklit] at hd0f
    exact absurd hd0f (by simp)
  clear hd0f
  have hd0w : isWordC d0 = true := by
    apply @isWordC_of_lowc d0 k0 _ hk0w.1
    rw [hld0, hk0w.2]
  have hie : i < e := by omega
  apply bookRE_anchor (sliceL u i e) key hkmem ?_ ?_ (b - i) (by omega) ?_ ?_
  · show boundaryAt (sliceL u i e) 0 = true
    unfold boundaryAt
    rw [if_pos rfl]
    have hwv : wordAt (sliceL u i e) 0 = true := by
      unfold wordAt
      rw [show (0 : Nat) = 0 from rfl]
      rw [show (sliceL u i e).get? 0 = u.get? (i + 0) from sliceL_get? u i e 0 (by omega)]
      rw [show i + 0 = i from rfl, hu0]
      exact hd0w
    rw [hwv]
    rfl
  · show litEq (sliceL u i e) 0 key.toList = true
    rw [litEq_congr u (sliceL u i e) key.toList i 0 ?_]
    · exact hklit
    · intro t ht
      rw [show (0 : Nat) + t = t from by omega]
      exact sliceL_get? u i e t (by omega)
  · intro q hq1 hq2
    obtain ⟨c2, hc2q, hpc2⟩ := hpunct (i + q) (by omega) (by omega)
    refine ⟨c2, ?_, hpc2⟩
    rw [sliceL_get? u i e q (by omega)]
    exact hc2q
  · rw [boundaryAt_slice u i e (b - i) (by omega) (by omega),
      show i + (b - i) = b from by omega]
    exact hbdb

/-- Every triple produced by `findFrom` is a genuine anchored match. -/
theorem findFrom_sound {r : RE} {s : List Char} {p : Nat} {t : Nat × Nat × Groups}
    (h : findFrom r s p = some t) : matchAt r s t.1 = some (t.2.1, t.2.2) := by
  rw [findFrom] at h
  obtain ⟨a, _, ha⟩ := List.exists_of_findSome?_eq_some h
  rcases hm : matchAt r s a with _ | jg
  · rw [hm] at ha
    exact absurd ha (by simp)
  · rw [hm] at ha
    simp only [Option.map_some'] at ha
    have ht : (a, jg.1, jg.2) = t := by injection ha
    rw [← ht]
    simpa using hm

theorem finditerAux_sound {r : RE} {s : List Char} :
    ∀ (fuel p : Nat) (t : Nat × Nat × Groups), t ∈ finditerAux r s fuel p →
      matchAt r s t.1 = some (t.2.1, t.2.2) := by
  intro fuel
  induction fuel with
  | zero => intro p t h; exact absurd h (by simp [finditerAux])
  | succ n ih =>
    intro p t h
    rw [finditerAux] at h
    rcases hf : findFrom r s p with _ | u
    · rw [hf] at h
      exact absurd h (by simp)
    · rw [hf] at h
      rcases List.mem_cons.mp h with rfl | htail
      · exact findFrom_sound hf
      · exact ih _ t htail

/-- Every triple produced by `finditer` is a genuine anchored match. -/
theorem finditer_sound {r : RE} {s : List Char} {t : Nat × Nat × Groups}
    (h : t ∈ finditer r s) : matchAt r s t.1 = some (t.2.1, t.2.2) := by
  rw [finditer] at h
  exact finditerAux_sound _ _ t h

theorem searchM_sound {r : RE} {s : List Char} {ng : Nat} {bm : MatchObj}
    (h : searchM r s ng = some bm) :
    matchAt r s bm.mstart = some (bm.mstop, bm.groups) ∧ bm.src = s ∧ bm.ngroups = ng := by
  rw [searchM] at h
  rcases hf : findFrom r s 0 with _ | t
  · rw [hf] at h
    exact absurd h (by simp)
  · rw [hf] at h
    simp only [Option.map_some'] at h
    have hm := findFrom_sound hf
    have hbm : toMatch s ng t = bm := by injection h
    rw [← hbm]
    exact ⟨hm, rfl, rfl⟩

theorem mapM_isSome {α β : Type} :
    ∀ (l : List α) (f : α → Option β), (∀ x ∈ l, (f x).isSome) → (l.mapM f).isSome := by
  intro l
  induction l with
  | nil => intro f _; rfl
  | cons x xs ih =>
    intro f hf
    rw [List.mapM_cons]
    obtain ⟨b, hb⟩ := Option.isSome_iff_exists.mp (hf x (List.mem_cons_self x xs))
    obtain ⟨bs, hbs⟩ := Option.isSome_iff_exists.mp (ih f (fun y hy => hf y (List.mem_cons_of_mem x hy)))
    have hbs2 : List.mapM.loop f xs [] = some bs := hbs
    simp [hb, hbs2]

theorem foldlM_isSome {α β : Type} :
    ∀ (l : List α) (f : β → α → Option β) (b : β),
      (∀ a ∈ l, ∀ c, (f c a).isSome) → (l.foldlM f b).isSome := by
  intro l
  induction l with
  | nil => intro f b _; rfl
  | cons x xs ih =>
    intro f b hf
    rw [List.foldlM_cons]
    obtain ⟨c, hc⟩ := Option.isSome_iff_exists.mp (hf x (List.mem_cons_self x xs) b)
    rw [hc]
    simpa using ih f c (fun y hy => hf y (List.mem_cons_of_mem x hy))

/-- `re.sub` succeeds if the replacement function succeeds on every
match. -/
theorem subAll_isSome {r : RE} {ng : Nat} {f : MatchObj → Option (List Char)} {s : List Char}
    (h : ∀ t ∈ finditer r s, (f (toMatch s ng t)).isSome) : (subAll r ng f s).isSome := by
  rw [subAll]
  obtain ⟨pieces, hp⟩ := Option.isSome_iff_exists.mp
    (mapM_isSome (finditer r s) (fun t => f (toMatch s ng t)) h)
  have hp2 : List.mapM.loop (fun t => f (toMatch s ng t)) (finditer r s) [] = some pieces := hp
  simp [hp2]

theorem isSome_ite (c : Prop) [Decidable c] (x y : Option (List Char))
    (hx : x.isSome = true) (hy : y.isSome = true) :
    (if c then x else y).isSome = true := by
  split
  · exact hx
  · exact hy

set_option maxHeartbeats 3200000 in
theorem standardize_reference_isSome (m : MatchObj) (sv : Bool)
    (h1 : (m.grp 1).isSome) (h2 : (m.grp 2).isSome)
    (h3 : sv = false → (matchAt bookRE m.group0 0).isSome) :
    (standardize_reference m sv).isSome := by
  obtain ⟨g1, hg1⟩ := Option.isSome_iff_exists.mp h1
  obtain ⟨g2, hg2⟩ := Option.isSome_iff_exists.mp h2
  rcases sv with _ | _
  · obtain ⟨bm, hbm⟩ := Option.isSome_iff_exists.mp (h3 rfl)
    simp only [standardize_reference, hg1, hg2, hbm, Option.bind_eq_bind, Option.some_bind]
    rw [if_neg Bool.false_ne_true]
    simp only [Option.some_bind, Option.pure_def]
    repeat' (first | exact rfl | apply isSome_ite)
  · simp only [standardize_reference, hg1, hg2, Option.bind_eq_bind, Option.some_bind,
      eq_self_iff_true, if_true, Option.some_bind, Option.pure_def]
    repeat' (first | exact rfl | apply isSome_ite)

set_option maxHeartbeats 3200000 in
theorem standardize_period_format_isSome (m : MatchObj)
    (h1 : (m.grp 1).isSome) (h2 : (m.grp 2).isSome)
    (h3 : (matchAt bookRE m.group0 0).isSome) :
    (standardize_period_format m).isSome := by
  obtain ⟨g1, hg1⟩ := Option.isSome_iff_exists.mp h1
  obtain ⟨g2, hg2⟩ := Option.isSome_iff_exists.mp h2
  obtain ⟨bm, hbm⟩ := Option.isSome_iff_exists.mp h3
  simp only [standardize_period_format, hg1, hg2, hbm, Option.bind_eq_bind, Option.some_bind]
  (repeat' split) <;> simp only [Option.pure_def, Option.isSome_some]

theorem standardize_invalid_range_isSome (m : MatchObj)
    (h1 : (m.grp 1).isSome) : (standardize_invalid_range m).isSome := by
  obtain ⟨g1, hg1⟩ := Option.isSome_iff_exists.mp h1
  simp only [standardize_invalid_range, hg1, Option.bind_eq_bind, Option.some_bind]
  simp

theorem standardize_standalone_chapter_isSome (m : MatchObj)
    (h1 : (m.grp 1).isSome) : (standardize_standalone_chapter m).isSome := by
  obtain ⟨g1, hg1⟩ := Option.isSome_iff_exists.mp h1
  simp only [standardize_standalone_chapter, hg1, Option.bind_eq_bind, Option.some_bind]
  (repeat' split) <;> simp

theorem parse_reference_components_isSome (ref : List Char) :
    (parse_reference_components ref).isSome := by
  rw [parse_reference_components]
  have hms : mustSet ppBook 1 = true := by decide
  split
  · rfl
  · rename_i j g heq
    have hg1 : (g 1).isSome := matchAt_grp_isSome hms heq
    obtain ⟨v, hv⟩ := Option.isSome_iff_exists.mp hg1
    have hgrp : ({ src := ref, mstart := 0, mstop := j, groups := g, ngroups := 1 } : MatchObj).grp 1
        = some (sliceL ref v.1 v.2) := by
      simp [MatchObj.grp, hv]
    split <;> simp only [hgrp] <;> (repeat' split) <;> simp

/-- The per-item loop of the group resolver never raises: every branch
either parses the item or passes it through unchanged. -/
theorem processItems_isSome : ∀ (refs : List (List Char)) (lb : Option (List Char)),
    (processItems refs lb).isSome := by
  intro refs
  induction refs with
  | nil => intro lb; rfl
  | cons ref rest ih =>
    intro lb
    obtain ⟨pc, hpc⟩ := Option.isSome_iff_exists.mp (parse_reference_components_isSome ref)
    rw [processItems]
    simp only [hpc, Option.bind_eq_bind, Option.some_bind]
    rcases pc with _ | comps
    · rcases hs : searchM lastRE ref 2 with _ | bm
      · obtain ⟨tail, ht⟩ := Option.isSome_iff_exists.mp (ih lb)
        simp [ht]
      · by_cases hb : truthy (bm.grp 2) = true
        · have hms : mustSet lastRE 1 = true := by decide
          have hsound := searchM_sound hs
          have h5 := matchAt_grp_isSome hms hsound.1
          obtain ⟨v, hv⟩ := Option.isSome_iff_exists.mp h5
          have hg1 : (bm.grp 1).isSome := by simp [MatchObj.grp, hv]
          obtain ⟨g1b, hg1b⟩ := Option.isSome_iff_exists.mp hg1
          obtain ⟨tail, ht⟩ := Option.isSome_iff_exists.mp (ih lb)
          simp [hb, hg1b, ht]
        · obtain ⟨tail, ht⟩ := Option.isSome_iff_exists.mp (ih lb)
          simp [hb, ht]
    · by_cases hbn : standardize_book_name comps.book_abbr = []
      · rcases lb with _ | lbv
        · obtain ⟨tail, ht⟩ := Option.isSome_iff_exists.mp (ih none)
          simp [hbn, ht]
        · obtain ⟨tail, ht⟩ := Option.isSome_iff_exists.mp (ih (some lbv))
          simp [hbn, ht]
      · obtain ⟨tail, ht⟩ :=
          Option.isSome_iff_exists.mp (ih (some (standardize_book_name comps.book_abbr)))
        simp [hbn, ht]

/-- The parenthesized-group rewrite never raises, given that group 1 of
its match participates (pattern 1 always records it). -/
theorem process_parenthesized_references_isSome (m : MatchObj)
    (h1 : (m.grp 1).isSome) : (process_parenthesized_references m).isSome := by
  obtain ⟨content, hc⟩ := Option.isSome_iff_exists.mp h1
  have hfix : (subAll fixRE 2 fixTemplate content).isSome := by
    apply subAll_isSome
    intro t ht
    have hm := finditer_sound ht
    have hms1 : mustSet fixRE 1 = true := by decide
    have hms2 : mustSet fixRE 2 = true := by decide
    obtain ⟨a, ha⟩ := Option.isSome_iff_exists.mp (matchAt_grp_isSome hms1 hm)
    obtain ⟨b, hb⟩ := Option.isSome_iff_exists.mp (matchAt_grp_isSome hms2 hm)
    simp [fixTemplate, toMatch, MatchObj.grp, ha, hb]
  obtain ⟨cf, hcf⟩ := Option.isSome_iff_exists.mp hfix
  obtain ⟨res, hres⟩ := Option.isSome_iff_exists.mp
    (processItems_isSome (((splitBy commaSplit cf).map stripWs).filter (fun p => !p.isEmpty)) none)
  simp [process_parenthesized_references, hc, hcf, hres]

/-- One pattern pass of the orchestrator never raises, provided the
rewrite function succeeds on every match of the pattern in any string. -/
theorem applyPattern_isSome (t : List Char) (r : RE) (f : MatchObj → Option (List Char)) (ng : Nat)
    (h : ∀ (u : List Char) (t' : Nat × Nat × Groups),
      t' ∈ finditer r u → (f (toMatch u ng t')).isSome) :
    (applyPattern t (r, f, ng)).isSome := by
  rw [applyPattern]
  apply foldlM_isSome
  intro mt hmt cur
  obtain ⟨rep, hrep⟩ := Option.isSome_iff_exists.mp
    (subAll_isSome (fun t' ht' => h (sliceL t mt.1 mt.2.1) t' ht'))
  simp [hrep]

/-- Pattern 1's rewrite succeeds on every match of pattern 1. -/
theorem pat1_rewrite_isSome (u : List Char) (t' : Nat × Nat × Groups)
    (ht' : t' ∈ finditer pat1 u) :
    (process_parenthesized_references (toMatch u 1 t')).isSome := by
  have hm := finditer_sound ht'
  apply process_parenthesized_references_isSome
  have hms : mustSet pat1 1 = true := by decide
  obtain ⟨v, hv⟩ := Option.isSome_iff_exists.mp (matchAt_grp_isSome hms hm)
  simp [toMatch, MatchObj.grp, hv]

/-- Pattern 2's rewrite succeeds on every match of pattern 2. -/
theorem pat2_rewrite_isSome (u : List Char) (t' : Nat × Nat × Groups)
    (ht' : t' ∈ finditer pat2 u) :
    (standardize_period_format (toMatch u 6 t')).isSome := by
  have hm := finditer_sound ht'
  apply standardize_period_format_isSome
  · have hms : mustSet pat2 1 = true := by decide
    obtain ⟨v, hv⟩ := Option.isSome_iff_exists.mp (matchAt_grp_isSome hms hm)
    simp [toMatch, MatchObj.grp, hv]
  · have hm2 : matchAt
        (.seq bookRE (seqs [.star isSpaceC, dPlus 3, chrR '.', dPlus 4, optRange 5, markGrp 6]))
        u t'.1 = some (t'.2.1, t'.2.2) := hm
    obtain ⟨v, hv⟩ := Option.isSome_iff_exists.mp (g2_participates _ u t'.1 hm2)
    simp [toMatch, MatchObj.grp, hv]
  · have hm3 : matchAt (.seq bookRE (.seq (.star isSpaceC) (.seq (.grp 3 (.plus isDigitC))
        (seqs [chrR '.', dPlus 4, optRange 5, markGrp 6])))) u t'.1
        = some (t'.2.1, t'.2.2) := hm
    have hr := matchAt_book_rematch isSpaceC isDigitC _ u t'.1 hm3
    simpa [toMatch, MatchObj.group0] using hr

/-- Pattern 3's rewrite succeeds on every match of pattern 3. -/
theorem pat3_rewrite_isSome (u : List Char) (t' : Nat × Nat × Groups)
    (ht' : t' ∈ finditer pat3 u) :
    (standardize_reference (toMatch u 6 t') false).isSome := by
  have hm := finditer_sound ht'
  apply standardize_reference_isSome
  · have hms : mustSet pat3 1 = true := by decide
    obtain ⟨v, hv⟩ := Option.isSome_iff_exists.mp (matchAt_grp_isSome hms hm)
    simp [toMatch, MatchObj.grp, hv]
  · have hm2 : matchAt
        (.seq bookRE (seqs [.star isSpaceC, dPlus 3, chrR ':', dPlus 4, optRange 5, markGrp 6]))
        u t'.1 = some (t'.2.1, t'.2.2) := hm
    obtain ⟨v, hv⟩ := Option.isSome_iff_exists.mp (g2_participates _ u t'.1 hm2)
    simp [toMatch, MatchObj.grp, hv]
  · intro _
    have hm3 : matchAt (.seq bookRE (.seq (.star isSpaceC) (.seq (.grp 3 (.plus isDigitC))
        (seqs [chrR ':', dPlus 4, optRange 5, markGrp 6])))) u t'.1
        = some (t'.2.1, t'.2.2) := hm
    have hr := matchAt_book_rematch isSpaceC isDigitC _ u t'.1 hm3
    simpa [toMatch, MatchObj.group0] using hr

/-- Pattern 4's rewrite succeeds on every match of pattern 4. -/
theorem pat4_rewrite_isSome (u : List Char) (t' : Nat × Nat × Groups)
    (ht' : t' ∈ finditer pat4 u) :
    (standardize_reference (toMatch u 6 t') true).isSome := by
  have hm := finditer_sound ht'
  apply standardize_reference_isSome
  · have hms : mustSet pat4 1 = true := by decide
    obtain ⟨v, hv⟩ := Option.isSome_iff_exists.mp (matchAt_grp_isSome hms hm)
    simp [toMatch, MatchObj.grp, hv]
  · have hm2 : matchAt
        (.seq bookRE (seqs [.star isSpaceC, strR "chapter", .star isSpaceC, dPlus 3,
          .star isSpaceC, strR "verse", .star isSpaceC, dPlus 4, optRange 5, markGrp 6]))
        u t'.1 = some (t'.2.1, t'.2.2) := hm
    obtain ⟨v, hv⟩ := Option.isSome_iff_exists.mp (g2_participates _ u t'.1 hm2)
    simp [toMatch, MatchObj.grp, hv]
  · intro hsv
    exact absurd hsv (by decide)

/-- Pattern 5's rewrite succeeds on every match of pattern 5. -/
theorem pat5_rewrite_isSome (u : List Char) (t' : Nat × Nat × Groups)
    (ht' : t' ∈ finditer pat5 u) :
    (standardize_reference (toMatch u 6 t') true).isSome := by
  have hm := finditer_sound ht'
  apply standardize_reference_isSome
  · have hms : mustSet pat5 1 = true := by decide
    obtain ⟨v, hv⟩ := Option.isSome_iff_exists.mp (matchAt_grp_isSome hms hm)
    simp [toMatch, MatchObj.grp, hv]
  · have hm2 : matchAt
        (.seq bookRE (seqs [.star isSpaceC, dPlus 3, .plus isSpaceC, dPlus 4, optRange 5,
          markGrp 6]))
        u t'.1 = some (t'.2.1, t'.2.2) := hm
    obtain ⟨v, hv⟩ := Option.isSome_iff_exists.mp (g2_participates _ u t'.1 hm2)
    simp [toMatch, MatchObj.grp, hv]
  · intro hsv
    exact absurd hsv (by decide)

/-- Pattern 6's rewrite succeeds on every match of pattern 6. -/
theorem pat6_rewrite_isSome (u : List Char) (t' : Nat × Nat × Groups)
    (ht' : t' ∈ finditer pat6 u) :
    (standardize_standalone_chapter (toMatch u 4 t')).isSome := by
  have hm := finditer_sound ht'
  apply standardize_standalone_chapter_isSome
  have hms : mustSet pat6 1 = true := by decide
  obtain ⟨v, hv⟩ := Option.isSome_iff_exists.mp (matchAt_grp_isSome hms hm)
  simp [toMatch, MatchObj.grp, hv]

/-- Pattern 7's rewrite succeeds on every match of pattern 7. -/
theorem pat7_rewrite_isSome (u : List Char) (t' : Nat × Nat × Groups)
    (ht' : t' ∈ finditer pat7 u) :
    (standardize_invalid_range (toMatch u 6 t')).isSome := by
  have hm := finditer_sound ht'
  apply standardize_invalid_range_isSome
  have hms : mustSet pat7 1 = true := by decide
  obtain ⟨v, hv⟩ := Option.isSome_iff_exists.mp (matchAt_grp_isSome hms hm)
  simp [toMatch, MatchObj.grp, hv]

/-- `standardize_text` never raises: every pattern pass succeeds on
every input. -/
theorem standardize_text_isSome (s : List Char) : (standardize_text s).isSome := by
  rw [standardize_text]
  apply foldlM_isSome
  intro p hp cur
  rw [PATTERNS] at hp
  simp only [List.mem_cons, List.not_mem_nil, or_false] at hp
  rcases hp with rfl | rfl | rfl | rfl | rfl | rfl | rfl
  · exact applyPattern_isSome cur pat1 _ 1 pat1_rewrite_isSome
  · exact applyPattern_isSome cur pat2 _ 6 pat2_rewrite_isSome
  · exact applyPattern_isSome cur pat3 _ 6 pat3_rewrite_isSome
  · exact applyPattern_isSome cur pat4 _ 6 pat4_rewrite_isSome
  · exact applyPattern_isSome cur pat5 _ 6 pat5_rewrite_isSome
  · exact applyPattern_isSome cur pat6 _ 4 pat6_rewrite_isSome
  · exact applyPattern_isSome cur pat7 _ 6 pat7_rewrite_isSome

/-- C2: totality.  `standardize_text` returns a result on every input
string: every pattern pass and every rewrite function succeeds (the
unguarded group accesses and the inner `re.match` always find a value),
so no exception propagates out of `standardize_text`. -/
theorem C2_standardize_text_total (s : List Char) : (standardize_text s).isSome :=
  standardize_text_isSome s
